import Mathlib

/-!
Formal model of the PyBaMM symbolic-expression core: the expression tree
(`Symb`), its evaluator and simplifier, the parameter-substitution pass
(`ParameterValues.process_model`), the discretisation bookkeeping
(StateVector slice allocation and the post-discretisation well-posedness
check), the model lifecycle state machine, battery-model option validation,
and the concrete source files under `src/` (the Chu2020 parameter functions,
the `Full` electrolyte-diffusion submodel's boundary conditions, and the
`StandardModelTest` harness).

Machine integers do not occur: all numeric values are exact rationals.
Fallible operations return `Except`/`Option`.
-/

/-- String containment helper: `needle` occurs as a contiguous substring of
`hay` (checked on the underlying character lists). -/
def listContainsSub (needle hay : List Char) : Bool :=
  (List.range (hay.length + 1)).any (fun i => needle.isPrefixOf (hay.drop i))

/-- A string mentions another string. -/
def strMentions (hay needle : String) : Bool :=
  listContainsSub needle.toList hay.toList

/-- The symbolic expression tree (the PyBaMM `Symbol` hierarchy).
Leaves: `Parameter(name)`, `FunctionParameter(name, *args)`,
`Variable(name, domain)`, `StateVector(first, last)`, `Scalar(value)`,
`Time`.  Interior nodes: the binary operators `Addition`, `Subtraction`,
`Multiplication`, `Division` and the unary operators `Negate` and `Exp`.
The variadic argument list of a `FunctionParameter` is encoded with the
two spine constructors `ArgsNil`/`ArgsCons` (so that the inductive stays
non-nested); `argsToList` decodes the spine back into a Lean list. -/
inductive Symb : Type where
  | Parameter (name : String)
  | FunctionParameter (name : String) (args : Symb)
  | ArgsNil
  | ArgsCons (head tail : Symb)
  | Variable (name : String) (domain : List String)
  | StateVector (first lastIdx : Nat)
  | Scalar (value : ℚ)
  | Time
  | Addition (l r : Symb)
  | Subtraction (l r : Symb)
  | Multiplication (l r : Symb)
  | Division (l r : Symb)
  | Negate (c : Symb)
  | Exp (c : Symb)
  deriving DecidableEq

/-- Decode a `FunctionParameter` argument spine into a list of symbols. -/
def Symb.argsToList : Symb → List Symb
  | .ArgsNil => []
  | .ArgsCons h t => h :: t.argsToList
  | s => [s]

/-- Pre-order traversal of the subtree rooted at a symbol: the node itself,
then the pre-orders of its children in order (PyBaMM `Symbol.pre_order`). -/
def Symb.pre_order : Symb → List Symb
  | .Parameter n => [.Parameter n]
  | .FunctionParameter n args => .FunctionParameter n args :: args.pre_order
  | .ArgsNil => [.ArgsNil]
  | .ArgsCons h t => .ArgsCons h t :: (h.pre_order ++ t.pre_order)
  | .Variable n d => [.Variable n d]
  | .StateVector f l => [.StateVector f l]
  | .Scalar v => [.Scalar v]
  | .Time => [.Time]
  | .Addition l r => .Addition l r :: (l.pre_order ++ r.pre_order)
  | .Subtraction l r => .Subtraction l r :: (l.pre_order ++ r.pre_order)
  | .Multiplication l r => .Multiplication l r :: (l.pre_order ++ r.pre_order)
  | .Division l r => .Division l r :: (l.pre_order ++ r.pre_order)
  | .Negate c => .Negate c :: c.pre_order
  | .Exp c => .Exp c :: c.pre_order

/-- Is this node an unresolved `Parameter` or `FunctionParameter`? -/
def Symb.isParamNode : Symb → Bool
  | .Parameter _ => true
  | .FunctionParameter _ _ => true
  | _ => false

/-- A symbol is parameter-free when a `pre_order` scan of its subtree finds
no `Parameter` or `FunctionParameter` node. -/
def Symb.paramFree (s : Symb) : Bool :=
  s.pre_order.all (fun n => !n.isParamNode)

/- ### The Chu2020 parameter functions (from `src/pybamm/input/parameters`) -/

/-- The symbol for the universal gas constant `pybamm.constants.R`
(a scalar constant node; the numeric value is the CODATA value used by
`scipy.constants.R`). -/
def constants_R : Symb := Symb.Scalar (8.314462618 : ℚ)

/-- Embedding of `graphite_elyte_exchange_current_density_Chu2020(c_e,
c_sSurfArg, T)` from
`src/pybamm/input/parameters/lithium-ion/anodes/graphite_Chu2020/graphite_elyte_exchange_current_density_Chu2020.py`:
`i0_ref = 14.31`, `E_i0 = 30.81`,
`arrhenius = exp(E_i0 / constants.R * (1 / 298.15 - 1 / T))`,
returns `i0_ref * arrhenius`.  The numeric literals are modelled as exact
rationals and every division in the formula is kept as a symbolic
`Division` node. -/
def graphite_elyte_exchange_current_density_Chu2020
    (c_e c_sSurfArg T : Symb) : Symb :=
  let _ := c_e
  let _ := c_sSurfArg
  let i0_ref : Symb := Symb.Scalar (14.31 : ℚ)
  let arrhenius : Symb :=
    Symb.Exp
      (Symb.Multiplication
        (Symb.Division (Symb.Scalar (30.81 : ℚ)) constants_R)
        (Symb.Subtraction
          (Symb.Division (Symb.Scalar 1) (Symb.Scalar (298.15 : ℚ)))
          (Symb.Division (Symb.Scalar 1) T)))
  Symb.Multiplication i0_ref arrhenius

/-- Embedding of `electrolyte_conductivity_Chu2020(T)` from
`src/pybamm/input/parameters/lithium-ion/electrolytes/lipf6_Chu2020/electrolyte_conductivity_Chu2020.py`:
`sigma_e = 0.022`, `a_k_e = 0.002`, `lin = a_k_e * (T - 298.15)`,
returns `sigma_e + lin`. -/
def electrolyte_conductivity_Chu2020 (T : Symb) : Symb :=
  let sigma_e : Symb := Symb.Scalar (0.022 : ℚ)
  let lin : Symb :=
    Symb.Multiplication (Symb.Scalar (0.002 : ℚ))
      (Symb.Subtraction T (Symb.Scalar (298.15 : ℚ)))
  Symb.Addition sigma_e lin

/- ### Boundary-condition kinds and the `Full` diffusion submodel -/

/-- Boundary-condition kind tag (the second component of PyBaMM boundary
condition pairs). -/
inductive BCType : Type where
  | Dirichlet
  | Neumann
  deriving DecidableEq

/-- A boundary-condition entry: the field symbol it is keyed by, and the
`(symbol, kind)` pair for each of the left and right boundary. -/
abbrev BCEntry := Symb × ((Symb × BCType) × (Symb × BCType))

/-- Embedding of `Full.set_boundary_conditions(varsMap)` from
`src/pybamm/models/submodels/electrolyte_diffusion/full_diffusion.py`:
it looks up `varsMap["Electrolyte concentration"]` and stores the single
boundary-condition entry
`{c_e: {"left": (Scalar(0), "Neumann"), "right": (Scalar(0), "Neumann")}}`.
A `varsMap` mapping without that key raises `KeyError` in Python,
modelled by `none`. -/
def Full_set_boundary_conditions (varsMap : String → Option Symb) :
    Option (List BCEntry) :=
  (varsMap "Electrolyte concentration").map (fun c_e =>
    [(c_e, ((Symb.Scalar 0, BCType.Neumann), (Symb.Scalar 0, BCType.Neumann)))])

/- ### Python truthiness and the `StandardModelTest` constructor -/

/-- A Python value as far as truthiness in `x or y` is concerned:
`none` is falsy, a dict/container is falsy exactly when empty, and a
generic object is truthy. -/
inductive PyVal : Type where
  | none
  | dict (entries : List (String × String))
  | obj (name : String)
  deriving DecidableEq

/-- Python truthiness of a `PyVal`. -/
def PyVal.truthy : PyVal → Bool
  | .none => false
  | .dict entries => !entries.isEmpty
  | .obj _ => true

/-- Python `a or b`: `a` if `a` is truthy, else `b`. -/
def pyOr (a b : PyVal) : PyVal := if a.truthy then a else b

/-- The model defaults consulted by `StandardModelTest.__init__`. -/
structure ModelDefaults : Type where
  default_parameter_values : PyVal
  default_geometry : PyVal
  default_submesh_types : PyVal
  default_var_pts : PyVal
  default_spatial_methods : PyVal
  default_solver : PyVal
  deriving DecidableEq

/-- The attributes chosen by `StandardModelTest.__init__`. -/
structure SMTChosen : Type where
  parameter_values : PyVal
  geometry : PyVal
  submesh_types : PyVal
  var_pts : PyVal
  spatial_methods : PyVal
  solver : PyVal
  deriving DecidableEq

/-- Embedding of the argument-defaulting logic of
`StandardModelTest.__init__` from
`src/tests/integration/test_models/standard_model_tests.py` (lines 15-42):
each constructor argument is combined with the model default through the
Python `or` idiom, e.g.
`self.parameter_values = parameter_values or model.default_parameter_values`. -/
def StandardModelTest_init (model : ModelDefaults)
    (parameter_values geometry submesh_types var_pts
      spatial_methods solver : PyVal) : SMTChosen :=
  { parameter_values := pyOr parameter_values model.default_parameter_values
    geometry := pyOr geometry model.default_geometry
    submesh_types := pyOr submesh_types model.default_submesh_types
    var_pts := pyOr var_pts model.default_var_pts
    spatial_methods := pyOr spatial_methods model.default_spatial_methods
    solver := pyOr solver model.default_solver }

/- ### Theorems for C8, C9, C10 -/

/-- C8: for all symbolic inputs, `graphite_elyte_exchange_current_density_Chu2020`
depends only on `T`: two calls with the same `T` but different `c_e` and
`c_s_surf` are structurally identical, and both equal
`14.31 * exp((30.81 / R) * (1/298.15 - 1/T))`. -/
theorem graphite_exchange_current_density_ignores_concentrations
    (c_e c_sSurfArg c_eAlt c_sSurfAlt T : Symb) :
    graphite_elyte_exchange_current_density_Chu2020 c_e c_sSurfArg T =
      graphite_elyte_exchange_current_density_Chu2020 c_eAlt c_sSurfAlt T ∧
    graphite_elyte_exchange_current_density_Chu2020 c_e c_sSurfArg T =
      Symb.Multiplication (Symb.Scalar (14.31 : ℚ))
        (Symb.Exp
          (Symb.Multiplication
            (Symb.Division (Symb.Scalar (30.81 : ℚ)) constants_R)
            (Symb.Subtraction
              (Symb.Division (Symb.Scalar 1) (Symb.Scalar (298.15 : ℚ)))
              (Symb.Division (Symb.Scalar 1) T)))) :=
  ⟨rfl, rfl⟩

/-- C9: every falsy constructor argument of `StandardModelTest.__init__`
(`None`, but also an empty dict) is replaced by the corresponding model
default, and a truthy argument is used as given; `None` and the empty dict
are falsy while a non-empty dict is truthy. -/
theorem standardModelTest_init_falsy_defaults (model : ModelDefaults)
    (pv g smt vp sm sol : PyVal) :
    ((StandardModelTest_init model pv g smt vp sm sol).parameter_values =
      if pv.truthy then pv else model.default_parameter_values) ∧
    ((StandardModelTest_init model pv g smt vp sm sol).geometry =
      if g.truthy then g else model.default_geometry) ∧
    ((StandardModelTest_init model pv g smt vp sm sol).submesh_types =
      if smt.truthy then smt else model.default_submesh_types) ∧
    ((StandardModelTest_init model pv g smt vp sm sol).var_pts =
      if vp.truthy then vp else model.default_var_pts) ∧
    ((StandardModelTest_init model pv g smt vp sm sol).spatial_methods =
      if sm.truthy then sm else model.default_spatial_methods) ∧
    ((StandardModelTest_init model pv g smt vp sm sol).solver =
      if sol.truthy then sol else model.default_solver) ∧
    PyVal.none.truthy = false ∧
    (PyVal.dict []).truthy = false ∧
    (∀ e es, (PyVal.dict (e :: es)).truthy = true) ∧
    (∀ nm, (PyVal.obj nm).truthy = true) :=
  ⟨rfl, rfl, rfl, rfl, rfl, rfl, rfl, rfl, fun _ _ => rfl, fun _ => rfl⟩

/-- C10: `Full.set_boundary_conditions` stores exactly one
boundary-condition entry, keyed by the `"Electrolyte concentration"`
variable, with both the left and the right side equal to
`(Scalar(0), "Neumann")` (zero-flux, never Dirichlet), for every varsMap
mapping that resolves that key. -/
theorem full_set_boundary_conditions_zero_neumann
    (varsMap : String → Option Symb) (c_e : Symb)
    (h : varsMap "Electrolyte concentration" = some c_e) :
    Full_set_boundary_conditions varsMap =
      some [(c_e, ((Symb.Scalar 0, BCType.Neumann),
                   (Symb.Scalar 0, BCType.Neumann)))] := by
  simp [Full_set_boundary_conditions, h]

/-- Witness for C10 at a concrete varsMap mapping. -/
theorem full_set_boundary_conditions_zero_neumann_witness :
    Full_set_boundary_conditions
      (fun n => if n = "Electrolyte concentration"
        then some (Symb.Variable "Electrolyte concentration"
          ["negative electrode", "separator", "positive electrode"])
        else Option.none) =
      some [(Symb.Variable "Electrolyte concentration"
          ["negative electrode", "separator", "positive electrode"],
        ((Symb.Scalar 0, BCType.Neumann), (Symb.Scalar 0, BCType.Neumann)))] :=
  full_set_boundary_conditions_zero_neumann _ _ (by simp)

/- ### Error taxonomy -/

/-- The error taxonomy of the spec (section 7): each constructor carries the
message the caller sees. -/
inductive PyErr : Type where
  | ModelError (msg : String)
  | ValueError (msg : String)
  | OptionError (msg : String)
  | KeyError (msg : String)
  | TypeError (msg : String)
  deriving DecidableEq

/- ### Model lifecycle state machine (C4) -/

/-- Modelled from the spec: the model lifecycle states of section 4.5,
`Unbuilt -> Built -> ParametersProcessed -> Discretised`, transitions only
move forward (the PyBaMM source for `BaseModel`/`build_model` is not under
`src/`; only its tests are). -/
inductive ModelState : Type where
  | Unbuilt
  | Built
  | ParametersProcessed
  | Discretised
  deriving DecidableEq

/-- A model: its lifecycle state and the four equation mappings, each keyed
by a Variable symbol. -/
structure BaseModel : Type where
  state : ModelState
  rhs : List (Symb × Symb)
  algebraic : List (Symb × Symb)
  initial_conditions : List (Symb × Symb)
  boundary_conditions : List BCEntry
  deriving DecidableEq

/-- The equations the physics submodels would install during a build. -/
structure SubmodelEquations : Type where
  rhs : List (Symb × Symb)
  algebraic : List (Symb × Symb)
  initial_conditions : List (Symb × Symb)
  boundary_conditions : List BCEntry
  deriving DecidableEq

/-- Modelled from the spec: `build_model()` (not under `src/`; only its test
`TestBaseBatteryModel.test_build_twice` is).  On an `Unbuilt` model the
submodels populate the equation mappings and the state becomes `Built`;
on a model already in `Built` or any later state it fails with
`ModelError("Model already built")` and leaves the model untouched.  The
pair returns the Python effect (`ok` or the raised error) together with the
model after the call. -/
def build_model (sub : SubmodelEquations) (m : BaseModel) :
    Except PyErr Unit × BaseModel :=
  if m.state = ModelState.Unbuilt then
    (Except.ok (), ⟨ModelState.Built, sub.rhs, sub.algebraic,
      sub.initial_conditions, sub.boundary_conditions⟩)
  else
    (Except.error (PyErr.ModelError "Model already built"), m)

/-- C4: calling `build_model()` on a model already in `Built` or any later
state fails with a `ModelError` whose message mentions
`"Model already built"`, and the failed call does not modify the model's
equations (the model is returned unchanged). -/
theorem build_model_already_built (sub : SubmodelEquations) (m : BaseModel)
    (h : m.state ≠ ModelState.Unbuilt) :
    (build_model sub m).1 =
      Except.error (PyErr.ModelError "Model already built") ∧
    strMentions "Model already built" "Model already built" = true ∧
    (build_model sub m).2 = m := by
  refine ⟨?_, by decide, ?_⟩ <;> simp [build_model, h]

/-- Witness for C4: building an already-`Built` empty model fails and the
model is unchanged. -/
theorem build_model_already_built_witness :
    (build_model ⟨[], [], [], []⟩ ⟨ModelState.Built, [], [], [], []⟩).1 =
      Except.error (PyErr.ModelError "Model already built") ∧
    strMentions "Model already built" "Model already built" = true ∧
    (build_model ⟨[], [], [], []⟩ ⟨ModelState.Built, [], [], [], []⟩).2 =
      ⟨ModelState.Built, [], [], [], []⟩ :=
  build_model_already_built ⟨[], [], [], []⟩ ⟨ModelState.Built, [], [], [], []⟩
    (by decide)

/- ### Battery-model option validation (C6) -/

/-- A model-option value: a string, an integer, or a list of strings. -/
inductive OptVal : Type where
  | str (s : String)
  | int (n : ℤ)
  | strList (items : List String)
  deriving DecidableEq

/-- Modelled from the spec and the option table printed by
`TestOptions.test_print_options`
(`src/tests/unit/test_models/test_full_battery_models/test_base_battery_model.py`):
each known option name with its list of possible values (`Option.none` for the
options that accept arbitrary values: side reactions, external submodels,
working electrode). -/
def option_possibilities : List (String × Option (List OptVal)) :=
  [("operating mode", some [.str "current", .str "voltage", .str "power"]),
   ("dimensionality", some [.int 0, .int 1, .int 2]),
   ("surface form", some [.str "false", .str "differential", .str "algebraic"]),
   ("convection", some [.str "none", .str "uniform transverse",
      .str "full transverse"]),
   ("side reactions", Option.none),
   ("interfacial surface area", some [.str "constant", .str "varying"]),
   ("current collector", some [.str "uniform", .str "potential pair",
      .str "potential pair quite conductive"]),
   ("particle", some [.str "Fickian diffusion", .str "fast diffusion",
      .str "uniform profile", .str "quadratic profile", .str "quartic profile"]),
   ("particle shape", some [.str "spherical", .str "user", .str "no particles"]),
   ("electrolyte conductivity", some [.str "default", .str "full",
      .str "leading order", .str "composite", .str "integrated"]),
   ("thermal", some [.str "isothermal", .str "lumped", .str "x-lumped",
      .str "x-full"]),
   ("cell geometry", some [.str "arbitrary", .str "pouch"]),
   ("external submodels", Option.none),
   ("SEI", some [.str "none", .str "constant", .str "reaction limited",
      .str "solvent-diffusion limited", .str "electron-migration limited",
      .str "interstitial-diffusion limited", .str "ec reaction limited"]),
   ("lithium plating", some [.str "none", .str "reversible", .str "irreversible"]),
   ("SEI porosity change", some [.str "true", .str "false"]),
   ("lithium plating porosity change", some [.str "true", .str "false"]),
   ("loss of active material", some [.str "none", .str "negative",
      .str "positive", .str "both"]),
   ("working electrode", Option.none),
   ("particle cracking", some [.str "none", .str "no cracking",
      .str "negative", .str "positive", .str "both"]),
   ("total interfacial current density as a state",
      some [.str "true", .str "false"]),
   ("SEI film resistance", some [.str "none", .str "distributed", .str "average"])]

/-- Modelled from the spec: the option validation performed when
`BaseBatteryModel` is constructed (the `Options` class is not under `src/`;
only its tests are).  An option name that is not recognised fails with an
`OptionError` mentioning `"Option"`; a recognised option whose value is
outside the possible values fails with an `OptionError` mentioning the
option name. -/
def BaseBatteryModel_check_options (opts : List (String × OptVal)) :
    Except PyErr Unit :=
  match opts with
  | [] => Except.ok ()
  | (k, v) :: rest =>
    match (option_possibilities.find? (fun p => p.1 = k)).map Prod.snd with
    | Option.none =>
      Except.error (PyErr.OptionError ("Option " ++ k ++ " not recognised"))
    | some Option.none => BaseBatteryModel_check_options rest
    | some (some poss) =>
      if v ∈ poss then BaseBatteryModel_check_options rest
      else Except.error (PyErr.OptionError
        ("Option " ++ k ++ " cannot take the value given"))

/-- C6: constructing `BaseBatteryModel` with `{"bad option": "bad option"}`
fails with an `OptionError` whose message mentions `"Option"`, and
constructing it with `{"dimensionality": 5}` fails with an `OptionError`
whose message mentions `"dimensionality"`. -/
theorem baseBatteryModel_invalid_options_fail :
    BaseBatteryModel_check_options [("bad option", OptVal.str "bad option")] =
      Except.error (PyErr.OptionError "Option bad option not recognised") ∧
    strMentions "Option bad option not recognised" "Option" = true ∧
    BaseBatteryModel_check_options [("dimensionality", OptVal.int 5)] =
      Except.error (PyErr.OptionError
        "Option dimensionality cannot take the value given") ∧
    strMentions "Option dimensionality cannot take the value given"
      "dimensionality" = true := by
  refine ⟨rfl, by decide, rfl, by decide⟩

/- ### ParameterValues and the substitution pass (C1) -/

/-- Modelled from the spec: the body of a resolved functional parameter
(the callable a `FunctionParameter` name maps to).  It is an expression
template over argument slots (`argRef i` is the i-th call argument) built
from constants, time and the arithmetic operators — e.g. an Arrhenius
expression; instantiation never introduces new unresolved
`Parameter`/`FunctionParameter` nodes. -/
inductive FunTemplate : Type where
  | argRef (i : Nat)
  | scalar (v : ℚ)
  | time
  | add (l r : FunTemplate)
  | sub (l r : FunTemplate)
  | mul (l r : FunTemplate)
  | divt (l r : FunTemplate)
  | neg (c : FunTemplate)
  | expt (c : FunTemplate)
  deriving DecidableEq

/-- Instantiate a functional-parameter template at a list of call
arguments (out-of-range slots default to `Scalar 0`). -/
def FunTemplate.toSymb (args : List Symb) : FunTemplate → Symb
  | .argRef i => args.getD i (Symb.Scalar 0)
  | .scalar v => Symb.Scalar v
  | .time => Symb.Time
  | .add l r => Symb.Addition (l.toSymb args) (r.toSymb args)
  | .sub l r => Symb.Subtraction (l.toSymb args) (r.toSymb args)
  | .mul l r => Symb.Multiplication (l.toSymb args) (r.toSymb args)
  | .divt l r => Symb.Division (l.toSymb args) (r.toSymb args)
  | .neg c => Symb.Negate (c.toSymb args)
  | .expt c => Symb.Exp (c.toSymb args)

/-- A resolved parameter value: a numeric constant, or a callable
(template) for functional relationships. -/
inductive PValue : Type where
  | num (v : ℚ)
  | func (body : FunTemplate)
  deriving DecidableEq

/-- A parameter set: a mapping from parameter name to resolved value
(an association list, immutable after construction). -/
abbrev ParameterValues := List (String × PValue)

/-- Modelled from the spec: `ParameterValues.process_symbol` (the PyBaMM
`ParameterValues` class is not under `src/`; only its tests and callers
are).  Every `Parameter(name)` node becomes `Scalar(lookup(name))`, every
`FunctionParameter(name, args)` node becomes `lookup(name)(*args)` applied
to the already-processed arguments (a numeric value stored under a
function-parameter name becomes a `Scalar`); an unresolved name fails with
`KeyError`, and strictly a `Parameter` whose stored value is a callable
fails with `TypeError`.  All other nodes are rebuilt over their processed
children. -/
def process_symbol (pv : ParameterValues) : Symb → Except PyErr Symb
  | .Parameter n =>
    match pv.lookup n with
    | some (PValue.num v) => Except.ok (Symb.Scalar v)
    | some (PValue.func _) => Except.error (PyErr.TypeError n)
    | Option.none => Except.error (PyErr.KeyError n)
  | .FunctionParameter n args =>
    match process_symbol pv args, pv.lookup n with
    | Except.ok argsP, some (PValue.func body) =>
      Except.ok (body.toSymb argsP.argsToList)
    | Except.ok _, some (PValue.num v) => Except.ok (Symb.Scalar v)
    | Except.ok _, Option.none => Except.error (PyErr.KeyError n)
    | Except.error e, _ => Except.error e
  | .ArgsNil => Except.ok Symb.ArgsNil
  | .ArgsCons h t =>
    match process_symbol pv h, process_symbol pv t with
    | Except.ok hP, Except.ok tP => Except.ok (Symb.ArgsCons hP tP)
    | Except.error e, _ => Except.error e
    | _, Except.error e => Except.error e
  | .Variable n d => Except.ok (Symb.Variable n d)
  | .StateVector f l => Except.ok (Symb.StateVector f l)
  | .Scalar v => Except.ok (Symb.Scalar v)
  | .Time => Except.ok Symb.Time
  | .Addition l r =>
    match process_symbol pv l, process_symbol pv r with
    | Except.ok lP, Except.ok rP => Except.ok (Symb.Addition lP rP)
    | Except.error e, _ => Except.error e
    | _, Except.error e => Except.error e
  | .Subtraction l r =>
    match process_symbol pv l, process_symbol pv r with
    | Except.ok lP, Except.ok rP => Except.ok (Symb.Subtraction lP rP)
    | Except.error e, _ => Except.error e
    | _, Except.error e => Except.error e
  | .Multiplication l r =>
    match process_symbol pv l, process_symbol pv r with
    | Except.ok lP, Except.ok rP => Except.ok (Symb.Multiplication lP rP)
    | Except.error e, _ => Except.error e
    | _, Except.error e => Except.error e
  | .Division l r =>
    match process_symbol pv l, process_symbol pv r with
    | Except.ok lP, Except.ok rP => Except.ok (Symb.Division lP rP)
    | Except.error e, _ => Except.error e
    | _, Except.error e => Except.error e
  | .Negate c =>
    match process_symbol pv c with
    | Except.ok cP => Except.ok (Symb.Negate cP)
    | Except.error e => Except.error e
  | .Exp c =>
    match process_symbol pv c with
    | Except.ok cP => Except.ok (Symb.Exp cP)
    | Except.error e => Except.error e

/-- The parameter set resolves every parameter name occurring in a symbol:
every `Parameter` name is stored as a numeric value and every
`FunctionParameter` name is stored. -/
def resolvesSymb (pv : ParameterValues) : Symb → Bool
  | .Parameter n =>
    match pv.lookup n with
    | some (PValue.num _) => true
    | _ => false
  | .FunctionParameter n args => (pv.lookup n).isSome && resolvesSymb pv args
  | .ArgsNil => true
  | .ArgsCons h t => resolvesSymb pv h && resolvesSymb pv t
  | .Variable _ _ => true
  | .StateVector _ _ => true
  | .Scalar _ => true
  | .Time => true
  | .Addition l r => resolvesSymb pv l && resolvesSymb pv r
  | .Subtraction l r => resolvesSymb pv l && resolvesSymb pv r
  | .Multiplication l r => resolvesSymb pv l && resolvesSymb pv r
  | .Division l r => resolvesSymb pv l && resolvesSymb pv r
  | .Negate c => resolvesSymb pv c
  | .Exp c => resolvesSymb pv c

theorem paramFree_ArgsNil : Symb.ArgsNil.paramFree = true := rfl

theorem paramFree_ArgsCons (h t : Symb) :
    (Symb.ArgsCons h t).paramFree = (h.paramFree && t.paramFree) := by
  simp [Symb.paramFree, Symb.pre_order, List.all_append, Symb.isParamNode]

theorem paramFree_Variable (n : String) (d : List String) :
    (Symb.Variable n d).paramFree = true := rfl

theorem paramFree_StateVector (f l : Nat) :
    (Symb.StateVector f l).paramFree = true := rfl

theorem paramFree_Scalar (v : ℚ) : (Symb.Scalar v).paramFree = true := rfl

theorem paramFree_Time : Symb.Time.paramFree = true := rfl

theorem paramFree_Addition (l r : Symb) :
    (Symb.Addition l r).paramFree = (l.paramFree && r.paramFree) := by
  simp [Symb.paramFree, Symb.pre_order, List.all_append, Symb.isParamNode]

theorem paramFree_Subtraction (l r : Symb) :
    (Symb.Subtraction l r).paramFree = (l.paramFree && r.paramFree) := by
  simp [Symb.paramFree, Symb.pre_order, List.all_append, Symb.isParamNode]

theorem paramFree_Multiplication (l r : Symb) :
    (Symb.Multiplication l r).paramFree = (l.paramFree && r.paramFree) := by
  simp [Symb.paramFree, Symb.pre_order, List.all_append, Symb.isParamNode]

theorem paramFree_Division (l r : Symb) :
    (Symb.Division l r).paramFree = (l.paramFree && r.paramFree) := by
  simp [Symb.paramFree, Symb.pre_order, List.all_append, Symb.isParamNode]

theorem paramFree_Negate (c : Symb) :
    (Symb.Negate c).paramFree = c.paramFree := by
  simp [Symb.paramFree, Symb.pre_order, Symb.isParamNode]

theorem paramFree_Exp (c : Symb) :
    (Symb.Exp c).paramFree = c.paramFree := by
  simp [Symb.paramFree, Symb.pre_order, Symb.isParamNode]

/-- Every element of a decoded argument spine of a parameter-free symbol is
parameter-free. -/
theorem argsToList_paramFree :
    ∀ s : Symb, s.paramFree = true → ∀ a ∈ s.argsToList, a.paramFree = true := by
  intro s
  induction s with
  | ArgsNil => intro _ a ha; simp [Symb.argsToList] at ha
  | ArgsCons h t _ iht =>
    intro hfree a ha
    rw [paramFree_ArgsCons, Bool.and_eq_true] at hfree
    simp only [Symb.argsToList, List.mem_cons] at ha
    rcases ha with rfl | ha
    · exact hfree.1
    · exact iht hfree.2 a ha
  | _ =>
    intro hfree a ha
    simp only [Symb.argsToList, List.mem_singleton] at ha
    subst ha
    exact hfree

/-- Instantiating a functional-parameter template at parameter-free
arguments yields a parameter-free symbol. -/
theorem FunTemplate.toSymb_paramFree (args : List Symb)
    (hargs : ∀ a ∈ args, a.paramFree = true) :
    ∀ t : FunTemplate, (t.toSymb args).paramFree = true := by
  intro t
  induction t with
  | argRef i =>
    simp only [FunTemplate.toSymb]
    rcases h : args[i]? with _ | a
    · simp [List.getD_eq_getElem?_getD, h, paramFree_Scalar]
    · have hmem : a ∈ args := List.getElem?_mem h
      simp [List.getD_eq_getElem?_getD, h, hargs a hmem]
  | scalar v => simp [FunTemplate.toSymb, paramFree_Scalar]
  | time => simp [FunTemplate.toSymb, paramFree_Time]
  | add l r ihl ihr => simp [FunTemplate.toSymb, paramFree_Addition, ihl, ihr]
  | sub l r ihl ihr => simp [FunTemplate.toSymb, paramFree_Subtraction, ihl, ihr]
  | mul l r ihl ihr => simp [FunTemplate.toSymb, paramFree_Multiplication, ihl, ihr]
  | divt l r ihl ihr => simp [FunTemplate.toSymb, paramFree_Division, ihl, ihr]
  | neg c ihc => simp [FunTemplate.toSymb, paramFree_Negate, ihc]
  | expt c ihc => simp [FunTemplate.toSymb, paramFree_Exp, ihc]

/-- Substituting a fully resolving parameter set into a symbol succeeds and
the result contains no `Parameter` or `FunctionParameter` node. -/
theorem process_symbol_ok_paramFree (pv : ParameterValues) :
    ∀ s : Symb, resolvesSymb pv s = true →
      ∃ sP, process_symbol pv s = Except.ok sP ∧ sP.paramFree = true := by
  intro s
  induction s with
  | Parameter n =>
    intro hres
    rcases hl : pv.lookup n with _ | pval
    · simp [resolvesSymb, hl] at hres
    · cases pval with
      | num v => exact ⟨Symb.Scalar v, by simp [process_symbol, hl], rfl⟩
      | func body => simp [resolvesSymb, hl] at hres
  | FunctionParameter n args ih =>
    intro hres
    simp only [resolvesSymb, Bool.and_eq_true, Option.isSome_iff_exists] at hres
    obtain ⟨⟨pval, hl⟩, hargs⟩ := hres
    obtain ⟨argsP, hok, hfree⟩ := ih hargs
    cases pval with
    | num v => exact ⟨Symb.Scalar v, by simp [process_symbol, hok, hl], rfl⟩
    | func body =>
      refine ⟨body.toSymb argsP.argsToList, by simp [process_symbol, hok, hl], ?_⟩
      exact FunTemplate.toSymb_paramFree _ (argsToList_paramFree argsP hfree) body
  | ArgsNil => intro _; exact ⟨Symb.ArgsNil, rfl, rfl⟩
  | ArgsCons h t ihh iht =>
    intro hres
    rw [resolvesSymb, Bool.and_eq_true] at hres
    obtain ⟨hP, hok1, hf1⟩ := ihh hres.1
    obtain ⟨tP, hok2, hf2⟩ := iht hres.2
    exact ⟨Symb.ArgsCons hP tP, by simp [process_symbol, hok1, hok2],
      by simp [paramFree_ArgsCons, hf1, hf2]⟩
  | Variable n d => intro _; exact ⟨Symb.Variable n d, rfl, rfl⟩
  | StateVector f l => intro _; exact ⟨Symb.StateVector f l, rfl, rfl⟩
  | Scalar v => intro _; exact ⟨Symb.Scalar v, rfl, rfl⟩
  | Time => intro _; exact ⟨Symb.Time, rfl, rfl⟩
  | Addition l r ihl ihr =>
    intro hres
    rw [resolvesSymb, Bool.and_eq_true] at hres
    obtain ⟨lP, hok1, hf1⟩ := ihl hres.1
    obtain ⟨rP, hok2, hf2⟩ := ihr hres.2
    exact ⟨Symb.Addition lP rP, by simp [process_symbol, hok1, hok2],
      by simp [paramFree_Addition, hf1, hf2]⟩
  | Subtraction l r ihl ihr =>
    intro hres
    rw [resolvesSymb, Bool.and_eq_true] at hres
    obtain ⟨lP, hok1, hf1⟩ := ihl hres.1
    obtain ⟨rP, hok2, hf2⟩ := ihr hres.2
    exact ⟨Symb.Subtraction lP rP, by simp [process_symbol, hok1, hok2],
      by simp [paramFree_Subtraction, hf1, hf2]⟩
  | Multiplication l r ihl ihr =>
    intro hres
    rw [resolvesSymb, Bool.and_eq_true] at hres
    obtain ⟨lP, hok1, hf1⟩ := ihl hres.1
    obtain ⟨rP, hok2, hf2⟩ := ihr hres.2
    exact ⟨Symb.Multiplication lP rP, by simp [process_symbol, hok1, hok2],
      by simp [paramFree_Multiplication, hf1, hf2]⟩
  | Division l r ihl ihr =>
    intro hres
    rw [resolvesSymb, Bool.and_eq_true] at hres
    obtain ⟨lP, hok1, hf1⟩ := ihl hres.1
    obtain ⟨rP, hok2, hf2⟩ := ihr hres.2
    exact ⟨Symb.Division lP rP, by simp [process_symbol, hok1, hok2],
      by simp [paramFree_Division, hf1, hf2]⟩
  | Negate c ihc =>
    intro hres
    obtain ⟨cP, hok, hf⟩ := ihc hres
    exact ⟨Symb.Negate cP, by simp [process_symbol, hok],
      by simp [paramFree_Negate, hf]⟩
  | Exp c ihc =>
    intro hres
    obtain ⟨cP, hok, hf⟩ := ihc hres
    exact ⟨Symb.Exp cP, by simp [process_symbol, hok],
      by simp [paramFree_Exp, hf]⟩

/-- Process every equation value of a keyed equation mapping, keeping the
Variable keys (the pass mutates the values in place). -/
def process_equation_list (pv : ParameterValues) :
    List (Symb × Symb) → Except PyErr (List (Symb × Symb))
  | [] => Except.ok []
  | (k, e) :: rest =>
    match process_symbol pv e, process_equation_list pv rest with
    | Except.ok eP, Except.ok restP => Except.ok ((k, eP) :: restP)
    | Except.error err, _ => Except.error err
    | _, Except.error err => Except.error err

/-- Process both sides of every boundary-condition entry. -/
def process_bc_list (pv : ParameterValues) :
    List BCEntry → Except PyErr (List BCEntry)
  | [] => Except.ok []
  | (k, ((lS, lT), (rS, rT))) :: rest =>
    match process_symbol pv lS, process_symbol pv rS, process_bc_list pv rest with
    | Except.ok lP, Except.ok rP, Except.ok restP =>
      Except.ok ((k, ((lP, lT), (rP, rT))) :: restP)
    | Except.error err, _, _ => Except.error err
    | _, Except.error err, _ => Except.error err
    | _, _, Except.error err => Except.error err

/-- Modelled from the spec: `ParameterValues.process_model(model)` rewrites
`model.rhs`, `model.algebraic`, `model.initial_conditions` and
`model.boundary_conditions` in place through `process_symbol`, and moves
the lifecycle state to `ParametersProcessed`. -/
def ParameterValues_process_model (pv : ParameterValues) (m : BaseModel) :
    Except PyErr BaseModel :=
  match process_equation_list pv m.rhs, process_equation_list pv m.algebraic,
      process_equation_list pv m.initial_conditions,
      process_bc_list pv m.boundary_conditions with
  | Except.ok r, Except.ok a, Except.ok i, Except.ok b =>
    Except.ok ⟨ModelState.ParametersProcessed, r, a, i, b⟩
  | Except.error err, _, _, _ => Except.error err
  | _, Except.error err, _, _ => Except.error err
  | _, _, Except.error err, _ => Except.error err
  | _, _, _, Except.error err => Except.error err

/-- The parameter set resolves every parameter name occurring anywhere in
the model's equations. -/
def resolvesModel (pv : ParameterValues) (m : BaseModel) : Bool :=
  m.rhs.all (fun kv => resolvesSymb pv kv.2) &&
  m.algebraic.all (fun kv => resolvesSymb pv kv.2) &&
  m.initial_conditions.all (fun kv => resolvesSymb pv kv.2) &&
  m.boundary_conditions.all (fun bc =>
    resolvesSymb pv bc.2.1.1 && resolvesSymb pv bc.2.2.1)

/-- Processing a fully resolved equation list succeeds and leaves every
value parameter-free. -/
theorem process_equation_list_ok (pv : ParameterValues) :
    ∀ eqs : List (Symb × Symb), eqs.all (fun kv => resolvesSymb pv kv.2) = true →
      ∃ out, process_equation_list pv eqs = Except.ok out ∧
        ∀ kv ∈ out, kv.2.paramFree = true := by
  intro eqs
  induction eqs with
  | nil => intro _; exact ⟨[], rfl, by simp⟩
  | cons kv rest ih =>
    intro hall
    rw [List.all_cons, Bool.and_eq_true] at hall
    obtain ⟨eP, hok, hfree⟩ := process_symbol_ok_paramFree pv kv.2 hall.1
    obtain ⟨restP, hok2, hfree2⟩ := ih hall.2
    refine ⟨(kv.1, eP) :: restP, ?_, ?_⟩
    · simp only [process_equation_list, hok, hok2]
    · intro x hx
      rcases List.mem_cons.mp hx with rfl | hx
      · exact hfree
      · exact hfree2 x hx

/-- Processing a fully resolved boundary-condition list succeeds and leaves
both sides of every entry parameter-free. -/
theorem process_bc_list_ok (pv : ParameterValues) :
    ∀ bcs : List BCEntry,
      bcs.all (fun bc => resolvesSymb pv bc.2.1.1 && resolvesSymb pv bc.2.2.1)
        = true →
      ∃ out, process_bc_list pv bcs = Except.ok out ∧
        ∀ bc ∈ out, bc.2.1.1.paramFree = true ∧ bc.2.2.1.paramFree = true := by
  intro bcs
  induction bcs with
  | nil => intro _; exact ⟨[], rfl, by simp⟩
  | cons bc rest ih =>
    obtain ⟨k, ⟨lS, lT⟩, ⟨rS, rT⟩⟩ := bc
    intro hall
    rw [List.all_cons, Bool.and_eq_true] at hall
    obtain ⟨hbc, hrest⟩ := hall
    rw [Bool.and_eq_true] at hbc
    obtain ⟨lP, hok1, hfree1⟩ := process_symbol_ok_paramFree pv lS hbc.1
    obtain ⟨rP, hok2, hfree2⟩ := process_symbol_ok_paramFree pv rS hbc.2
    obtain ⟨restP, hok3, hfree3⟩ := ih hrest
    refine ⟨(k, ((lP, lT), (rP, rT))) :: restP, ?_, ?_⟩
    · simp only [process_bc_list, hok1, hok2, hok3]
    · intro x hx
      rcases List.mem_cons.mp hx with rfl | hx
      · exact ⟨hfree1, hfree2⟩
      · exact hfree3 x hx

/-- C1: for every model `M` and parameter set `P` such that `P` resolves
every parameter name occurring in `M`, `ParameterValues.process_model(M)`
succeeds, and a `pre_order` scan finds no `Parameter` or
`FunctionParameter` node in any value of `M.rhs`, `M.algebraic`, or
`M.boundary_conditions`. -/
theorem process_model_eliminates_parameter_nodes (pv : ParameterValues)
    (m : BaseModel) (hres : resolvesModel pv m = true) :
    ∃ mP, ParameterValues_process_model pv m = Except.ok mP ∧
      (∀ kv ∈ mP.rhs, kv.2.paramFree = true) ∧
      (∀ kv ∈ mP.algebraic, kv.2.paramFree = true) ∧
      (∀ bc ∈ mP.boundary_conditions,
        bc.2.1.1.paramFree = true ∧ bc.2.2.1.paramFree = true) := by
  rw [resolvesModel, Bool.and_eq_true, Bool.and_eq_true, Bool.and_eq_true]
    at hres
  obtain ⟨⟨⟨h1, h2⟩, h3⟩, h4⟩ := hres
  obtain ⟨r, hr, hrf⟩ := process_equation_list_ok pv m.rhs h1
  obtain ⟨a, ha, haf⟩ := process_equation_list_ok pv m.algebraic h2
  obtain ⟨i, hi, _⟩ := process_equation_list_ok pv m.initial_conditions h3
  obtain ⟨b, hb, hbf⟩ := process_bc_list_ok pv m.boundary_conditions h4
  exact ⟨⟨ModelState.ParametersProcessed, r, a, i, b⟩,
    by simp only [ParameterValues_process_model, hr, ha, hi, hb], hrf, haf, hbf⟩

/-- Witness for C1 on a concrete model: one rhs equation with a `Parameter`
and a `FunctionParameter` (whose stored callable is an Arrhenius-style
template), one boundary condition with a `Parameter` on the left side. -/
theorem process_model_eliminates_parameter_nodes_witness :
    resolvesModel
      [("Diffusivity", PValue.num 2),
       ("Exchange current density",
         PValue.func (FunTemplate.mul (FunTemplate.argRef 0)
           (FunTemplate.expt (FunTemplate.scalar 3))))]
      ⟨ModelState.Built,
        [(Symb.Variable "c" ["negative electrode"],
          Symb.Multiplication (Symb.Parameter "Diffusivity")
            (Symb.FunctionParameter "Exchange current density"
              (Symb.ArgsCons Symb.Time Symb.ArgsNil)))],
        [],
        [(Symb.Variable "c" ["negative electrode"], Symb.Scalar 1)],
        [(Symb.Variable "c" ["negative electrode"],
          ((Symb.Parameter "Diffusivity", BCType.Neumann),
           (Symb.Scalar 0, BCType.Neumann)))]⟩ = true ∧
    ∃ mP,
      ParameterValues_process_model
        [("Diffusivity", PValue.num 2),
         ("Exchange current density",
           PValue.func (FunTemplate.mul (FunTemplate.argRef 0)
             (FunTemplate.expt (FunTemplate.scalar 3))))]
        ⟨ModelState.Built,
          [(Symb.Variable "c" ["negative electrode"],
            Symb.Multiplication (Symb.Parameter "Diffusivity")
              (Symb.FunctionParameter "Exchange current density"
                (Symb.ArgsCons Symb.Time Symb.ArgsNil)))],
          [],
          [(Symb.Variable "c" ["negative electrode"], Symb.Scalar 1)],
          [(Symb.Variable "c" ["negative electrode"],
            ((Symb.Parameter "Diffusivity", BCType.Neumann),
             (Symb.Scalar 0, BCType.Neumann)))]⟩ = Except.ok mP ∧
      (∀ kv ∈ mP.rhs, kv.2.paramFree = true) ∧
      (∀ kv ∈ mP.algebraic, kv.2.paramFree = true) ∧
      (∀ bc ∈ mP.boundary_conditions,
        bc.2.1.1.paramFree = true ∧ bc.2.2.1.paramFree = true) :=
  ⟨by decide, process_model_eliminates_parameter_nodes _ _ (by decide)⟩

/- ### Discretisation: StateVector slice allocation (C2) -/

/-- An allocated slice: variable name with its half-open StateVector index
range `[first, lastIdx)`. -/
abbrev VarSlice := String × Nat × Nat

/-- Modelled from the spec (sections 3 and 4.4; the PyBaMM `Discretisation`
class is not under `src/`): the single deterministic allocation pass over
the distinct variables in first-encounter order.  `offset` is the running
start of the next slice; each variable with discretised size `sz` receives
the contiguous range `[offset, offset + sz)`. -/
def set_variable_slices_from (offset : Nat) :
    List (String × Nat) → List VarSlice
  | [] => []
  | (n, sz) :: rest => (n, offset, offset + sz) ::
      set_variable_slices_from (offset + sz) rest

/-- Allocate StateVector slices for all variables, starting at index 0. -/
def set_variable_slices (vars : List (String × Nat)) : List VarSlice :=
  set_variable_slices_from 0 vars

/-- The total discretised state size: the sum of per-variable sizes. -/
def total_state_size (vars : List (String × Nat)) : Nat :=
  (vars.map (fun v => v.2)).sum

/-- How many allocated slices contain index `k`. -/
def slice_count (slices : List VarSlice) (k : Nat) : Nat :=
  slices.countP (fun s => decide (s.2.1 ≤ k ∧ k < s.2.2))

/-- Modelled from the spec: the StateVector-range part of
`check_well_posedness(post_discretisation=True)` (section 4.4).  Walking
the slices in allocation order with the expected next start index: a slice
starting past the expected index is a gap (`ModelError("Missing
variable")`), a slice starting before it (or ending before it starts) is an
overlap (`ModelError("duplicate state")`); on success it returns the index
reached. -/
def check_slice_chain (expected : Nat) :
    List VarSlice → Except PyErr Nat
  | [] => Except.ok expected
  | (n, f, l) :: rest =>
    if expected < f then
      Except.error (PyErr.ModelError ("Missing variable " ++ n))
    else if f < expected then
      Except.error (PyErr.ModelError ("duplicate state " ++ n))
    else if l < f then
      Except.error (PyErr.ModelError ("duplicate state " ++ n))
    else check_slice_chain l rest

/-- Modelled from the spec: the post-discretisation well-posedness check of
the allocated StateVector ranges against the total state size `N`: the
ranges must exactly tile `[0, N)`. -/
def check_well_posedness_post_disc (slices : List VarSlice) (N : Nat) :
    Except PyErr Unit :=
  match check_slice_chain 0 slices with
  | Except.ok reached =>
    if reached = N then Except.ok ()
    else if reached < N then
      Except.error (PyErr.ModelError "Missing variable")
    else Except.error (PyErr.ModelError "duplicate state")
  | Except.error err => Except.error err

/-- The allocator's slices, started at `offset`, contain each index `k`
exactly once on `[offset, offset + total)` and never elsewhere. -/
theorem set_variable_slices_from_count (vars : List (String × Nat)) :
    ∀ offset k, slice_count (set_variable_slices_from offset vars) k =
      if offset ≤ k ∧ k < offset + total_state_size vars then 1 else 0 := by
  induction vars with
  | nil =>
    intro offset k
    simp only [set_variable_slices_from, slice_count, List.countP_nil,
      total_state_size, List.map_nil, List.sum_nil]
    rw [if_neg (by omega)]
  | cons v rest ih =>
    intro offset k
    obtain ⟨n, sz⟩ := v
    simp only [set_variable_slices_from, slice_count, List.countP_cons]
    have hrest := ih (offset + sz) k
    rw [slice_count] at hrest
    rw [hrest]
    simp only [total_state_size, List.map_cons, List.sum_cons,
      decide_eq_true_eq]
    split_ifs <;> omega

/-- The slice chain produced by the allocator passes the chain check and
reaches exactly the end of the allocated block. -/
theorem check_slice_chain_alloc (vars : List (String × Nat)) :
    ∀ offset, check_slice_chain offset (set_variable_slices_from offset vars) =
      Except.ok (offset + total_state_size vars) := by
  induction vars with
  | nil =>
    intro offset
    simp [set_variable_slices_from, check_slice_chain, total_state_size]
  | cons v rest ih =>
    intro offset
    obtain ⟨n, sz⟩ := v
    simp only [set_variable_slices_from, check_slice_chain]
    rw [if_neg (by omega), if_neg (by omega), if_neg (by omega), ih]
    simp only [total_state_size, List.map_cons, List.sum_cons]
    exact congrArg Except.ok (by omega)

/-- Soundness of the chain check: an accepted slice list is a contiguous
chain, so it contains each index of `[expected, reached)` exactly once and
no other index. -/
theorem check_slice_chain_sound :
    ∀ (slices : List VarSlice) (expected reached : Nat),
      check_slice_chain expected slices = Except.ok reached →
      expected ≤ reached ∧
      ∀ k, slice_count slices k =
        if expected ≤ k ∧ k < reached then 1 else 0 := by
  intro slices
  induction slices with
  | nil =>
    intro expected reached h
    simp only [check_slice_chain, Except.ok.injEq] at h
    subst h
    refine ⟨Nat.le_refl _, ?_⟩
    intro k
    simp only [slice_count, List.countP_nil]
    rw [if_neg (by omega)]
  | cons s rest ih =>
    intro expected reached h
    obtain ⟨n, f, l⟩ := s
    simp only [check_slice_chain] at h
    split_ifs at h with h1 h2 h3
    obtain ⟨hle, hcount⟩ := ih l reached h
    have hef : expected = f := by omega
    subst hef
    refine ⟨by omega, ?_⟩
    intro k
    simp only [slice_count, List.countP_cons]
    have hk := hcount k
    rw [slice_count] at hk
    rw [hk]
    simp only [decide_eq_true_eq]
    split_ifs <;> omega

/-- Every error the chain check can produce is a `ModelError`. -/
theorem check_slice_chain_error_model :
    ∀ (slices : List VarSlice) (expected : Nat) (err : PyErr),
      check_slice_chain expected slices = Except.error err →
      ∃ msg, err = PyErr.ModelError msg := by
  intro slices
  induction slices with
  | nil => intro expected err h; simp [check_slice_chain] at h
  | cons s rest ih =>
    intro expected err h
    obtain ⟨n, f, l⟩ := s
    simp only [check_slice_chain] at h
    split_ifs at h with h1 h2 h3
    · injection h with h; exact ⟨_, h.symm⟩
    · injection h with h; exact ⟨_, h.symm⟩
    · injection h with h; exact ⟨_, h.symm⟩
    · exact ih l err h

/-- C2: the StateVector index ranges allocated by the discretisation pass
are pairwise disjoint and their union is exactly `[0, N)` where `N` is the
sum of the per-variable discretised sizes (each index below `N` lies in
exactly one range, each index at or above `N` in none); the allocation is
accepted by `check_well_posedness(post_discretisation=True)`; any slice
list the check accepts tiles `[0, N)` exactly, so any gap or overlap makes
it fail; and every failure is a `ModelError`. -/
theorem discretisation_slices_tile_state_vector (vars : List (String × Nat)) :
    (∀ k, slice_count (set_variable_slices vars) k =
      if k < total_state_size vars then 1 else 0) ∧
    check_well_posedness_post_disc (set_variable_slices vars)
      (total_state_size vars) = Except.ok () ∧
    (∀ (slices : List VarSlice) (N : Nat),
      check_well_posedness_post_disc slices N = Except.ok () →
      ∀ k, slice_count slices k = if k < N then 1 else 0) ∧
    (∀ (slices : List VarSlice) (N : Nat) (err : PyErr),
      check_well_posedness_post_disc slices N = Except.error err →
      ∃ msg, err = PyErr.ModelError msg) := by
  refine ⟨?_, ?_, ?_, ?_⟩
  · intro k
    rw [set_variable_slices, set_variable_slices_from_count vars 0 k]
    simp
  · rw [set_variable_slices, check_well_posedness_post_disc,
      check_slice_chain_alloc vars 0]
    simp
  · intro slices N h k
    unfold check_well_posedness_post_disc at h
    split at h
    case _ reached hc =>
      split_ifs at h with h1 h2
      subst h1
      rw [(check_slice_chain_sound slices 0 reached hc).2 k]
      simp
    case _ err hc => exact absurd h (by simp)
  · intro slices N err h
    unfold check_well_posedness_post_disc at h
    split at h
    case _ reached hc =>
      split_ifs at h with h1 h2
      · injection h with h; exact ⟨_, h.symm⟩
      · injection h with h; exact ⟨_, h.symm⟩
    case _ cerr hc =>
      injection h with h
      obtain ⟨msg, hmsg⟩ := check_slice_chain_error_model slices 0 cerr hc
      exact ⟨msg, h ▸ hmsg⟩

/-- Witness for C2 on a concrete allocation (`a` of size 2, `c` of size 3)
and concrete accepted/rejected slice lists. -/
theorem discretisation_slices_tile_state_vector_witness :
    slice_count (set_variable_slices [("a", 2), ("c", 3)]) 4 =
      (if 4 < total_state_size [("a", 2), ("c", 3)] then 1 else 0) ∧
    check_well_posedness_post_disc (set_variable_slices [("a", 2), ("c", 3)])
      (total_state_size [("a", 2), ("c", 3)]) = Except.ok () ∧
    slice_count [("x", 0, 1)] 0 = (if 0 < 1 then 1 else 0) ∧
    (∃ msg, PyErr.ModelError "Missing variable x" = PyErr.ModelError msg) :=
  ⟨(discretisation_slices_tile_state_vector [("a", 2), ("c", 3)]).1 4,
   (discretisation_slices_tile_state_vector [("a", 2), ("c", 3)]).2.1,
   (discretisation_slices_tile_state_vector [("a", 2), ("c", 3)]).2.2.1
     [("x", 0, 1)] 1 (by rfl) 0,
   (discretisation_slices_tile_state_vector [("a", 2), ("c", 3)]).2.2.2
     [("x", 1, 2)] 2 (PyErr.ModelError "Missing variable x") (by rfl)⟩

/- ### Updating parameters on a discretised model (C5) -/

/-- The geometry-affecting width parameters checked by
`StandardModelTest.test_update_parameters`. -/
def geometry_widths : List String :=
  ["Negative electrode width [m]", "Separator width [m]",
   "Positive electrode width [m]"]

/-- A numeric parameter set (name to value), as used when updating an
already-discretised model. -/
abbrev NumParameterValues := List (String × ℚ)

/-- A discretised model: its allocated StateVector slices, total state
size, the parametric form of the concatenated equations kept for
re-substitution (numeric parameters still appear as `Parameter` nodes),
and the current concatenated equations. -/
structure DiscModel : Type where
  slices : List VarSlice
  total_size : Nat
  parametric_rhs : Symb
  concatenated_rhs : Symb
  deriving DecidableEq

/-- Substitute the numeric values of a parameter set for the `Parameter`
nodes of a symbol, leaving unknown names in place. -/
def subst_num_params (pv : NumParameterValues) : Symb → Symb
  | .Parameter n =>
    match pv.lookup n with
    | some v => Symb.Scalar v
    | Option.none => Symb.Parameter n
  | .FunctionParameter n args =>
    Symb.FunctionParameter n (subst_num_params pv args)
  | .ArgsNil => Symb.ArgsNil
  | .ArgsCons h t =>
    Symb.ArgsCons (subst_num_params pv h) (subst_num_params pv t)
  | .Variable n d => Symb.Variable n d
  | .StateVector f l => Symb.StateVector f l
  | .Scalar v => Symb.Scalar v
  | .Time => Symb.Time
  | .Addition l r => Symb.Addition (subst_num_params pv l) (subst_num_params pv r)
  | .Subtraction l r =>
    Symb.Subtraction (subst_num_params pv l) (subst_num_params pv r)
  | .Multiplication l r =>
    Symb.Multiplication (subst_num_params pv l) (subst_num_params pv r)
  | .Division l r => Symb.Division (subst_num_params pv l) (subst_num_params pv r)
  | .Negate c => Symb.Negate (subst_num_params pv c)
  | .Exp c => Symb.Exp (subst_num_params pv c)

/-- Modelled from the spec: `ParameterValues.update_model(model, disc)`
(not under `src/`): the updated parameter values are re-substituted into
the already-discretised model's concatenated equations; the allocated
slices and state size are untouched. -/
def update_model (pv : NumParameterValues) (m : DiscModel) : DiscModel :=
  { m with concatenated_rhs := subst_num_params pv m.parametric_rhs }

/-- Modelled from the spec: the (pre-discretisation flavour of)
`model.check_well_posedness()` called after an update: no `Parameter` or
`FunctionParameter` node may remain in the concatenated equations. -/
def DiscModel.well_posed (m : DiscModel) : Bool :=
  m.concatenated_rhs.paramFree

/-- Embedding of `StandardModelTest.test_update_parameters(param)` from
`src/tests/integration/test_models/standard_model_tests.py` (lines
104-124): if any geometry width is present in `param` with a value
different from the stored `self.parameter_values`, raise
`ValueError("geometry has changed, the orginal model needs to be
re-discretised")` (misspelling as in the source); otherwise run
`param.update_model(self.model, self.disc)` and then
`self.model.check_well_posedness()` (which raises `ModelError` if the
updated model is ill-posed). -/
def test_update_parameters (self_parameter_values : NumParameterValues)
    (m : DiscModel) (param : NumParameterValues) : Except PyErr DiscModel :=
  if geometry_widths.any (fun length =>
      (param.lookup length).isSome &&
        !(param.lookup length == self_parameter_values.lookup length)) then
    Except.error (PyErr.ValueError
      "geometry has changed, the orginal model needs to be re-discretised")
  else
    let mU := update_model param m
    if mU.well_posed then Except.ok mU
    else Except.error (PyErr.ModelError "unresolved symbol after update")

/-- Substituting a parameter set that contains every `Parameter` name of a
symbol without `FunctionParameter` or leftover nodes yields a
parameter-free symbol. -/
theorem subst_num_params_paramFree (pv : NumParameterValues) :
    ∀ s : Symb,
      (s.pre_order.all (fun n => match n with
        | Symb.Parameter nm => (pv.lookup nm).isSome
        | Symb.FunctionParameter _ _ => false
        | _ => true)) = true →
      (subst_num_params pv s).paramFree = true := by
  intro s
  induction s with
  | Parameter n =>
    intro hres
    simp only [Symb.pre_order, List.all_cons, List.all_nil,
      Bool.and_true] at hres
    rw [Option.isSome_iff_exists] at hres
    obtain ⟨v, hv⟩ := hres
    simp [subst_num_params, hv, paramFree_Scalar]
  | FunctionParameter n args ih =>
    intro hres
    simp [Symb.pre_order, List.all_cons] at hres
  | ArgsNil => intro _; exact paramFree_ArgsNil
  | ArgsCons h t ihh iht =>
    intro hres
    simp only [Symb.pre_order, List.all_cons, List.all_append,
      Bool.and_eq_true] at hres
    rw [subst_num_params, paramFree_ArgsCons, ihh hres.2.1, iht hres.2.2]
    rfl
  | Variable n d => intro _; exact paramFree_Variable n d
  | StateVector f l => intro _; exact paramFree_StateVector f l
  | Scalar v => intro _; exact paramFree_Scalar v
  | Time => intro _; exact paramFree_Time
  | Addition l r ihl ihr =>
    intro hres
    simp only [Symb.pre_order, List.all_cons, List.all_append,
      Bool.and_eq_true] at hres
    rw [subst_num_params, paramFree_Addition, ihl hres.2.1, ihr hres.2.2]
    rfl
  | Subtraction l r ihl ihr =>
    intro hres
    simp only [Symb.pre_order, List.all_cons, List.all_append,
      Bool.and_eq_true] at hres
    rw [subst_num_params, paramFree_Subtraction, ihl hres.2.1, ihr hres.2.2]
    rfl
  | Multiplication l r ihl ihr =>
    intro hres
    simp only [Symb.pre_order, List.all_cons, List.all_append,
      Bool.and_eq_true] at hres
    rw [subst_num_params, paramFree_Multiplication, ihl hres.2.1, ihr hres.2.2]
    rfl
  | Division l r ihl ihr =>
    intro hres
    simp only [Symb.pre_order, List.all_cons, List.all_append,
      Bool.and_eq_true] at hres
    rw [subst_num_params, paramFree_Division, ihl hres.2.1, ihr hres.2.2]
    rfl
  | Negate c ihc =>
    intro hres
    simp only [Symb.pre_order, List.all_cons, Bool.and_eq_true] at hres
    rw [subst_num_params, paramFree_Negate, ihc hres.2]
  | Exp c ihc =>
    intro hres
    simp only [Symb.pre_order, List.all_cons, Bool.and_eq_true] at hres
    rw [subst_num_params, paramFree_Exp, ihc hres.2]

/-- C5: updating parameters on an already-discretised model with a
parameter set in which some geometry width is present with a value
different from the original fails with the geometry-changed `ValueError`
instead of substituting; an update that changes no width parameter
proceeds via `update_model` and (when the new set resolves every numeric
parameter of the equations) leaves the model well-posed. -/
theorem test_update_parameters_geometry_guard
    (self_pv param : NumParameterValues) (m : DiscModel) :
    ((∃ len ∈ geometry_widths, ∃ v, param.lookup len = some v ∧
        param.lookup len ≠ self_pv.lookup len) →
      test_update_parameters self_pv m param =
        Except.error (PyErr.ValueError
          "geometry has changed, the orginal model needs to be re-discretised")) ∧
    ((geometry_widths.any fun length =>
        (param.lookup length).isSome &&
          !(param.lookup length == self_pv.lookup length)) = false →
      (m.parametric_rhs.pre_order.all (fun n => match n with
        | Symb.Parameter nm => (param.lookup nm).isSome
        | Symb.FunctionParameter _ _ => false
        | _ => true)) = true →
      test_update_parameters self_pv m param =
        Except.ok (update_model param m) ∧
      (update_model param m).well_posed = true) := by
  constructor
  · rintro ⟨len, hmem, v, hv, hne⟩
    have hne2 : some v ≠ self_pv.lookup len := hv ▸ hne
    have hcond : (geometry_widths.any fun length =>
        (param.lookup length).isSome &&
          !(param.lookup length == self_pv.lookup length)) = true := by
      rw [List.any_eq_true]
      exact ⟨len, hmem, by simp [hv, beq_iff_eq, hne2]⟩
    simp [test_update_parameters, hcond]
  · intro hnochange hres
    have hwp : (update_model param m).well_posed = true := by
      simp only [update_model, DiscModel.well_posed]
      exact subst_num_params_paramFree param m.parametric_rhs hres
    refine ⟨?_, hwp⟩
    simp only [test_update_parameters, hnochange, Bool.false_eq_true,
      if_false, hwp, if_true]

/-- Witness for C5: a width change is rejected with the geometry-changed
error; a pure diffusivity change is applied by `update_model` and the
result is well-posed. -/
theorem test_update_parameters_geometry_guard_witness :
    test_update_parameters
      [("Negative electrode width [m]", 1), ("Separator width [m]", 2),
       ("Positive electrode width [m]", 3), ("Diffusivity", 4)]
      ⟨[("c", 0, 1)], 1,
        Symb.Multiplication (Symb.Parameter "Diffusivity")
          (Symb.StateVector 0 1), Symb.Scalar 0⟩
      [("Negative electrode width [m]", 9), ("Separator width [m]", 2),
       ("Positive electrode width [m]", 3), ("Diffusivity", 4)] =
      Except.error (PyErr.ValueError
        "geometry has changed, the orginal model needs to be re-discretised") ∧
    (test_update_parameters
      [("Negative electrode width [m]", 1), ("Separator width [m]", 2),
       ("Positive electrode width [m]", 3), ("Diffusivity", 4)]
      ⟨[("c", 0, 1)], 1,
        Symb.Multiplication (Symb.Parameter "Diffusivity")
          (Symb.StateVector 0 1), Symb.Scalar 0⟩
      [("Negative electrode width [m]", 1), ("Separator width [m]", 2),
       ("Positive electrode width [m]", 3), ("Diffusivity", 5)] =
      Except.ok (update_model
        [("Negative electrode width [m]", 1), ("Separator width [m]", 2),
         ("Positive electrode width [m]", 3), ("Diffusivity", 5)]
        ⟨[("c", 0, 1)], 1,
          Symb.Multiplication (Symb.Parameter "Diffusivity")
            (Symb.StateVector 0 1), Symb.Scalar 0⟩) ∧
      (update_model
        [("Negative electrode width [m]", 1), ("Separator width [m]", 2),
         ("Positive electrode width [m]", 3), ("Diffusivity", 5)]
        ⟨[("c", 0, 1)], 1,
          Symb.Multiplication (Symb.Parameter "Diffusivity")
            (Symb.StateVector 0 1), Symb.Scalar 0⟩).well_posed = true) :=
  ⟨(test_update_parameters_geometry_guard _ _ _).1
      ⟨"Negative electrode width [m]", by decide, 9, by decide, by decide⟩,
   (test_update_parameters_geometry_guard _ _ _).2 (by decide) (by decide)⟩

/- ### The evaluator (C3, C7) -/

/-- A numeric evaluation result: a one-dimensional array of exact
rationals (a scalar is the length-one array). -/
abbrev EvalVal := List ℚ

/-- Apply a binary operation under standard broadcasting: a length-one
operand broadcasts to the other operand's length; otherwise the lengths
must agree (elementwise application), else the shapes are incompatible. -/
def broadcastOp (f : ℚ → ℚ → ℚ) : EvalVal → EvalVal → Option EvalVal
  | [a], ys => some (ys.map (fun b => f a b))
  | xs, [b] => some (xs.map (fun a => f a b))
  | xs, ys =>
    if xs.length = ys.length then some (List.zipWith f xs ys) else Option.none

/-- Division semantics: division by exact zero is a domain error (`none`),
as the spec requires, rather than silent NaN. -/
def divSem (xs ys : EvalVal) : Option EvalVal :=
  if ys.any (fun b => b == 0) then Option.none
  else broadcastOp (fun a b => a / b) xs ys

/-- Modelled from the spec (section 4.1): post-order numeric evaluation of
a symbol at time `t` and state vector `y` (the PyBaMM evaluator is not
under `src/`).  Unresolved leaves (`Parameter`, `FunctionParameter`,
`Variable`) and argument spines have no numeric value; a `StateVector`
yields the slice `y[first..lastIdx)`; the exponential has no exact
rational value, so the rational-valued evaluator reports it as outside its
domain (`none`). -/
def Symb.evaluate (t : ℚ) (y : Nat → ℚ) : Symb → Option EvalVal
  | .Parameter _ => Option.none
  | .FunctionParameter _ _ => Option.none
  | .ArgsNil => Option.none
  | .ArgsCons _ _ => Option.none
  | .Variable _ _ => Option.none
  | .StateVector f l => some ((List.range (l - f)).map (fun i => y (f + i)))
  | .Scalar v => some [v]
  | .Time => some [t]
  | .Addition a b =>
    match a.evaluate t y, b.evaluate t y with
    | some xs, some ys => broadcastOp (fun p q => p + q) xs ys
    | _, _ => Option.none
  | .Subtraction a b =>
    match a.evaluate t y, b.evaluate t y with
    | some xs, some ys => broadcastOp (fun p q => p - q) xs ys
    | _, _ => Option.none
  | .Multiplication a b =>
    match a.evaluate t y, b.evaluate t y with
    | some xs, some ys => broadcastOp (fun p q => p * q) xs ys
    | _, _ => Option.none
  | .Division a b =>
    match a.evaluate t y, b.evaluate t y with
    | some xs, some ys => divSem xs ys
    | _, _ => Option.none
  | .Negate c => (c.evaluate t y).map (List.map (fun q => -q))
  | .Exp _ => Option.none

/- ### The simplifier (C3) -/

/-- The numeric value of a `Scalar` node, if the symbol is one. -/
def scalarValue : Symb → Option ℚ
  | .Scalar v => some v
  | _ => Option.none

theorem scalarValue_eq_some {s : Symb} {v : ℚ} :
    scalarValue s = some v ↔ s = Symb.Scalar v := by
  cases s <;> simp [scalarValue]

/-- Simplified addition: fold two constants, drop an additive identity. -/
def mkAdd (l r : Symb) : Symb :=
  match scalarValue l, scalarValue r with
  | some a, some b => Symb.Scalar (a + b)
  | _, _ =>
    if l = Symb.Scalar 0 then r
    else if r = Symb.Scalar 0 then l
    else Symb.Addition l r

/-- Simplified subtraction: fold two constants, drop a zero subtrahend. -/
def mkSub (l r : Symb) : Symb :=
  match scalarValue l, scalarValue r with
  | some a, some b => Symb.Scalar (a - b)
  | _, _ =>
    if r = Symb.Scalar 0 then l else Symb.Subtraction l r

/-- Simplified multiplication: fold two constants, drop a multiplicative
identity. -/
def mkMul (l r : Symb) : Symb :=
  match scalarValue l, scalarValue r with
  | some a, some b => Symb.Scalar (a * b)
  | _, _ =>
    if l = Symb.Scalar 1 then r
    else if r = Symb.Scalar 1 then l
    else Symb.Multiplication l r

/-- Simplified division: fold two constants when the divisor is not zero,
drop a unit divisor. -/
def mkDiv (l r : Symb) : Symb :=
  match scalarValue l, scalarValue r with
  | some a, some b =>
    if b = 0 then Symb.Division l r else Symb.Scalar (a / b)
  | _, _ =>
    if r = Symb.Scalar 1 then l else Symb.Division l r

/-- Simplified negation: fold a constant. -/
def mkNeg (c : Symb) : Symb :=
  match scalarValue c with
  | some a => Symb.Scalar (-a)
  | Option.none => Symb.Negate c

/-- Modelled from the spec (section 4.2): `Symbol.simplify()` (the PyBaMM
simplifier is not under `src/`; only its caller
`OptimisationsTest.evaluate_model` is).  Bottom-up structural rewriting:
constant subtrees fold to a single `Scalar` and identity elements of
addition, subtraction, multiplication and division are eliminated. -/
def Symb.simplify : Symb → Symb
  | .Addition a b => mkAdd a.simplify b.simplify
  | .Subtraction a b => mkSub a.simplify b.simplify
  | .Multiplication a b => mkMul a.simplify b.simplify
  | .Division a b => mkDiv a.simplify b.simplify
  | .Negate c => mkNeg c.simplify
  | .Exp c => Symb.Exp c.simplify
  | .FunctionParameter n args => Symb.FunctionParameter n args.simplify
  | .ArgsCons h t => Symb.ArgsCons h.simplify t.simplify
  | s => s

theorem evaluate_mkAdd (l r : Symb) (t : ℚ) (y : Nat → ℚ) :
    (mkAdd l r).evaluate t y = (Symb.Addition l r).evaluate t y := by
  rw [mkAdd]
  rcases hl : scalarValue l with _ | a <;> rcases hr : scalarValue r with _ | b
  · simp only
    split_ifs with h1 h2
    · subst h1
      rcases he : r.evaluate t y with _ | ys <;>
        simp [Symb.evaluate, he, broadcastOp]
    · subst h2
      rcases he : l.evaluate t y with _ | xs
      · simp [Symb.evaluate, he]
      · rcases xs with _ | ⟨a, _ | ⟨b, rest⟩⟩ <;>
          simp [Symb.evaluate, he, broadcastOp]
    · rfl
  · rw [scalarValue_eq_some] at hr
    subst hr
    simp only
    split_ifs with h1 h2
    · subst h1
      simp [scalarValue] at hl
    · rw [h2]
      rcases he : l.evaluate t y with _ | xs
      · simp [Symb.evaluate, he]
      · rcases xs with _ | ⟨a, _ | ⟨c, rest⟩⟩ <;>
          simp [Symb.evaluate, he, broadcastOp]
    · rfl
  · rw [scalarValue_eq_some] at hl
    subst hl
    simp only
    split_ifs with h1 h2
    · rw [h1]
      rcases he : r.evaluate t y with _ | ys <;>
        simp [Symb.evaluate, he, broadcastOp]
    · subst h2
      simp [Symb.evaluate, broadcastOp]
    · rfl
  · rw [scalarValue_eq_some] at hl hr
    subst hl; subst hr
    simp [Symb.evaluate, broadcastOp]

theorem evaluate_mkSub (l r : Symb) (t : ℚ) (y : Nat → ℚ) :
    (mkSub l r).evaluate t y = (Symb.Subtraction l r).evaluate t y := by
  rw [mkSub]
  rcases hl : scalarValue l with _ | a <;> rcases hr : scalarValue r with _ | b
  · simp only
    split_ifs with h1
    · subst h1; simp [scalarValue] at hr
    · rfl
  · rw [scalarValue_eq_some] at hr
    subst hr
    simp only
    split_ifs with h1
    · rw [h1]
      rcases he : l.evaluate t y with _ | xs
      · simp [Symb.evaluate, he]
      · rcases xs with _ | ⟨a, _ | ⟨c, rest⟩⟩ <;>
          simp [Symb.evaluate, he, broadcastOp]
    · rfl
  · simp only
    split_ifs with h1
    · subst h1; simp [scalarValue] at hr
    · rfl
  · rw [scalarValue_eq_some] at hl hr
    subst hl; subst hr
    simp [Symb.evaluate, broadcastOp]

theorem evaluate_mkMul (l r : Symb) (t : ℚ) (y : Nat → ℚ) :
    (mkMul l r).evaluate t y = (Symb.Multiplication l r).evaluate t y := by
  rw [mkMul]
  rcases hl : scalarValue l with _ | a <;> rcases hr : scalarValue r with _ | b
  · simp only
    split_ifs with h1 h2
    · subst h1; simp [scalarValue] at hl
    · subst h2; simp [scalarValue] at hr
    · rfl
  · rw [scalarValue_eq_some] at hr
    subst hr
    simp only
    split_ifs with h1 h2
    · subst h1; simp [scalarValue] at hl
    · rw [h2]
      rcases he : l.evaluate t y with _ | xs
      · simp [Symb.evaluate, he]
      · rcases xs with _ | ⟨a, _ | ⟨c, rest⟩⟩ <;>
          simp [Symb.evaluate, he, broadcastOp]
    · rfl
  · rw [scalarValue_eq_some] at hl
    subst hl
    simp only
    split_ifs with h1 h2
    · rw [h1]
      rcases he : r.evaluate t y with _ | ys <;>
        simp [Symb.evaluate, he, broadcastOp]
    · subst h2; simp [scalarValue] at hr
    · rfl
  · rw [scalarValue_eq_some] at hl hr
    subst hl; subst hr
    simp [Symb.evaluate, broadcastOp]

theorem evaluate_mkDiv (l r : Symb) (t : ℚ) (y : Nat → ℚ) :
    (mkDiv l r).evaluate t y = (Symb.Division l r).evaluate t y := by
  rw [mkDiv]
  rcases hl : scalarValue l with _ | a <;> rcases hr : scalarValue r with _ | b
  · simp only
    split_ifs with h1
    · subst h1; simp [scalarValue] at hr
    · rfl
  · rw [scalarValue_eq_some] at hr
    subst hr
    simp only
    split_ifs with h1
    · rw [h1]
      rcases he : l.evaluate t y with _ | xs
      · simp [Symb.evaluate, he]
      · rcases xs with _ | ⟨a, _ | ⟨c, rest⟩⟩ <;>
          simp [Symb.evaluate, he, divSem, broadcastOp]
    · rfl
  · simp only
    split_ifs with h1
    · subst h1; simp [scalarValue] at hr
    · rfl
  · rw [scalarValue_eq_some] at hl hr
    subst hl; subst hr
    simp only
    split_ifs with h1
    · rfl
    · simp [Symb.evaluate, divSem, broadcastOp, h1]

theorem evaluate_mkNeg (c : Symb) (t : ℚ) (y : Nat → ℚ) :
    (mkNeg c).evaluate t y = (Symb.Negate c).evaluate t y := by
  rw [mkNeg]
  rcases hc : scalarValue c with _ | a
  · rfl
  · rw [scalarValue_eq_some] at hc
    subst hc
    simp [Symb.evaluate]

theorem pre_order_length_pos (s : Symb) : 1 ≤ s.pre_order.length := by
  cases s <;> simp [Symb.pre_order]

theorem size_mkAdd (l r : Symb) :
    (mkAdd l r).pre_order.length ≤ (Symb.Addition l r).pre_order.length := by
  have hl1 := pre_order_length_pos l
  have hr1 := pre_order_length_pos r
  rw [mkAdd]
  rcases hl : scalarValue l with _ | a <;>
    rcases hr : scalarValue r with _ | b <;> simp only <;>
    (try split_ifs) <;> simp [Symb.pre_order] <;> omega

theorem size_mkSub (l r : Symb) :
    (mkSub l r).pre_order.length ≤ (Symb.Subtraction l r).pre_order.length := by
  have hl1 := pre_order_length_pos l
  have hr1 := pre_order_length_pos r
  rw [mkSub]
  rcases hl : scalarValue l with _ | a <;>
    rcases hr : scalarValue r with _ | b <;> simp only <;>
    (try split_ifs) <;> simp [Symb.pre_order] <;> omega

theorem size_mkMul (l r : Symb) :
    (mkMul l r).pre_order.length ≤
      (Symb.Multiplication l r).pre_order.length := by
  have hl1 := pre_order_length_pos l
  have hr1 := pre_order_length_pos r
  rw [mkMul]
  rcases hl : scalarValue l with _ | a <;>
    rcases hr : scalarValue r with _ | b <;> simp only <;>
    (try split_ifs) <;> simp [Symb.pre_order] <;> omega

theorem size_mkDiv (l r : Symb) :
    (mkDiv l r).pre_order.length ≤ (Symb.Division l r).pre_order.length := by
  have hl1 := pre_order_length_pos l
  have hr1 := pre_order_length_pos r
  rw [mkDiv]
  rcases hl : scalarValue l with _ | a <;>
    rcases hr : scalarValue r with _ | b <;> simp only <;>
    (try split_ifs) <;> simp [Symb.pre_order] <;> omega

theorem size_mkNeg (c : Symb) :
    (mkNeg c).pre_order.length ≤ (Symb.Negate c).pre_order.length := by
  have hc1 := pre_order_length_pos c
  rw [mkNeg]
  rcases hc : scalarValue c with _ | a <;> simp only <;>
    simp [Symb.pre_order]

/-- Simplification preserves the evaluation of every symbol at every
time and state. -/
theorem simplify_evaluate (x : Symb) :
    ∀ t y, (x.simplify).evaluate t y = x.evaluate t y := by
  induction x with
  | Parameter n => intro t y; rfl
  | FunctionParameter n args ih =>
    intro t y; simp only [Symb.simplify]; rfl
  | ArgsNil => intro t y; rfl
  | ArgsCons h tl ihh ihtl =>
    intro t y; simp only [Symb.simplify]; rfl
  | Variable n d => intro t y; rfl
  | StateVector f l => intro t y; rfl
  | Scalar v => intro t y; rfl
  | Time => intro t y; rfl
  | Addition a b iha ihb =>
    intro t y
    simp only [Symb.simplify]
    rw [evaluate_mkAdd]
    simp only [Symb.evaluate, iha t y, ihb t y]
  | Subtraction a b iha ihb =>
    intro t y
    simp only [Symb.simplify]
    rw [evaluate_mkSub]
    simp only [Symb.evaluate, iha t y, ihb t y]
  | Multiplication a b iha ihb =>
    intro t y
    simp only [Symb.simplify]
    rw [evaluate_mkMul]
    simp only [Symb.evaluate, iha t y, ihb t y]
  | Division a b iha ihb =>
    intro t y
    simp only [Symb.simplify]
    rw [evaluate_mkDiv]
    simp only [Symb.evaluate, iha t y, ihb t y]
  | Negate c ihc =>
    intro t y
    simp only [Symb.simplify]
    rw [evaluate_mkNeg]
    simp only [Symb.evaluate, ihc t y]
  | Exp c ihc => intro t y; simp only [Symb.simplify]; rfl

/-- Simplification never increases the number of nodes. -/
theorem simplify_num_nodes (x : Symb) :
    x.simplify.pre_order.length ≤ x.pre_order.length := by
  induction x with
  | Parameter n => exact Nat.le_refl _
  | FunctionParameter n args ih =>
    simp only [Symb.simplify, Symb.pre_order, List.length_cons]
    omega
  | ArgsNil => exact Nat.le_refl _
  | ArgsCons h tl ihh ihtl =>
    simp only [Symb.simplify, Symb.pre_order, List.length_cons,
      List.length_append]
    omega
  | Variable n d => exact Nat.le_refl _
  | StateVector f l => exact Nat.le_refl _
  | Scalar v => exact Nat.le_refl _
  | Time => exact Nat.le_refl _
  | Addition a b iha ihb =>
    simp only [Symb.simplify]
    refine Nat.le_trans (size_mkAdd _ _) ?_
    simp only [Symb.pre_order, List.length_cons, List.length_append]
    omega
  | Subtraction a b iha ihb =>
    simp only [Symb.simplify]
    refine Nat.le_trans (size_mkSub _ _) ?_
    simp only [Symb.pre_order, List.length_cons, List.length_append]
    omega
  | Multiplication a b iha ihb =>
    simp only [Symb.simplify]
    refine Nat.le_trans (size_mkMul _ _) ?_
    simp only [Symb.pre_order, List.length_cons, List.length_append]
    omega
  | Division a b iha ihb =>
    simp only [Symb.simplify]
    refine Nat.le_trans (size_mkDiv _ _) ?_
    simp only [Symb.pre_order, List.length_cons, List.length_append]
    omega
  | Negate c ihc =>
    simp only [Symb.simplify]
    refine Nat.le_trans (size_mkNeg _) ?_
    simp only [Symb.pre_order, List.length_cons]
    omega
  | Exp c ihc =>
    simp only [Symb.simplify, Symb.pre_order, List.length_cons]
    omega

/-- C3: for every symbol `x` and every `(t, y)`,
`evaluate(simplify(x), t, y)` equals `evaluate(x, t, y)`, and
`simplify(x)` has no more nodes than `x`. -/
theorem simplify_preserves_evaluation_and_node_count
    (x : Symb) (t : ℚ) (y : Nat → ℚ) :
    x.simplify.evaluate t y = x.evaluate t y ∧
    x.simplify.pre_order.length ≤ x.pre_order.length :=
  ⟨simplify_evaluate x t y, simplify_num_nodes x⟩

/- ### Evaluation with a `known_evals` cache (C7) -/

/-- The memoised sub-evaluation cache: already-computed values keyed by
node id; by spec (section 3) the id is structural, so two structurally
identical subtrees share one entry. -/
abbrev KnownEvals := List (Symb × EvalVal)

/-- Look up a node in the cache by structural identity. -/
def lookup_known (km : KnownEvals) (s : Symb) : Option EvalVal :=
  (km.find? (fun p => p.1 == s)).map (fun p => p.2)

/-- Record a successful evaluation of `s` in the cache; a failed
evaluation records nothing. -/
def record_known (s : Symb) (v? : Option EvalVal) (km : KnownEvals) :
    Option EvalVal × KnownEvals :=
  match v? with
  | some v => (some v, (s, v) :: km)
  | Option.none => (Option.none, km)

/-- Modelled from the spec (section 4.1): `symbol.evaluate(t, y,
known_evals)` returning the pair `(value, known_evals)` as the caller
`OptimisationsTest.evaluate_model` uses it.  On a cache hit the subtree is
not re-evaluated: the cached value is returned and the cache is unchanged.
On a miss the node is evaluated from its (cache-threaded) children and the
result is recorded. -/
def Symb.evaluate_known (t : ℚ) (y : Nat → ℚ) :
    Symb → KnownEvals → Option EvalVal × KnownEvals
  | s, km =>
    match lookup_known km s with
    | some v => (some v, km)
    | Option.none =>
      match s with
      | .Parameter _ => (Option.none, km)
      | .FunctionParameter _ _ => (Option.none, km)
      | .ArgsNil => (Option.none, km)
      | .ArgsCons _ _ => (Option.none, km)
      | .Variable _ _ => (Option.none, km)
      | .StateVector f l =>
        record_known (Symb.StateVector f l)
          (some ((List.range (l - f)).map (fun i => y (f + i)))) km
      | .Scalar v => record_known (Symb.Scalar v) (some [v]) km
      | .Time => record_known Symb.Time (some [t]) km
      | .Addition a b =>
        let r1 := Symb.evaluate_known t y a km
        let r2 := Symb.evaluate_known t y b r1.2
        match r1.1, r2.1 with
        | some xs, some ys =>
          record_known (Symb.Addition a b) (broadcastOp (fun p q => p + q) xs ys) r2.2
        | _, _ => (Option.none, r2.2)
      | .Subtraction a b =>
        let r1 := Symb.evaluate_known t y a km
        let r2 := Symb.evaluate_known t y b r1.2
        match r1.1, r2.1 with
        | some xs, some ys =>
          record_known (Symb.Subtraction a b) (broadcastOp (fun p q => p - q) xs ys) r2.2
        | _, _ => (Option.none, r2.2)
      | .Multiplication a b =>
        let r1 := Symb.evaluate_known t y a km
        let r2 := Symb.evaluate_known t y b r1.2
        match r1.1, r2.1 with
        | some xs, some ys =>
          record_known (Symb.Multiplication a b) (broadcastOp (fun p q => p * q) xs ys) r2.2
        | _, _ => (Option.none, r2.2)
      | .Division a b =>
        let r1 := Symb.evaluate_known t y a km
        let r2 := Symb.evaluate_known t y b r1.2
        match r1.1, r2.1 with
        | some xs, some ys =>
          record_known (Symb.Division a b) (divSem xs ys) r2.2
        | _, _ => (Option.none, r2.2)
      | .Negate c =>
        let r1 := Symb.evaluate_known t y c km
        match r1.1 with
        | some xs =>
          record_known (Symb.Negate c) (some (xs.map (fun q => -q))) r1.2
        | Option.none => (Option.none, r1.2)
      | .Exp c =>
        let r1 := Symb.evaluate_known t y c km
        (Option.none, r1.2)

/-- The cache is coherent with plain evaluation at `(t, y)`: every entry
stores exactly the value plain evaluation produces for its key. -/
def cache_ok (t : ℚ) (y : Nat → ℚ) (km : KnownEvals) : Prop :=
  ∀ p ∈ km, p.1.evaluate t y = some p.2

theorem cache_ok_nil (t : ℚ) (y : Nat → ℚ) : cache_ok t y [] := by
  intro p hp
  cases hp

/-- A cache hit returns the plain evaluation value under a coherent
cache. -/
theorem lookup_known_sound (t : ℚ) (y : Nat → ℚ) (km : KnownEvals)
    (h : cache_ok t y km) (s : Symb) (v : EvalVal)
    (hv : lookup_known km s = some v) : s.evaluate t y = some v := by
  rw [lookup_known] at hv
  rcases hf : km.find? (fun p => p.1 == s) with _ | p
  · rw [hf] at hv; cases hv
  · rw [hf] at hv
    simp only [Option.map] at hv
    have h2 := List.find?_some hf
    have hps : p.1 = s := eq_of_beq h2
    have hmem : p ∈ km := List.mem_of_find?_eq_some hf
    have := h p hmem
    rw [hps] at this
    rw [this, hv]

/-- Cached evaluation agrees with plain evaluation under a coherent cache,
and the returned cache is again coherent. -/
theorem evaluate_known_spec (t : ℚ) (y : Nat → ℚ) :
    ∀ (s : Symb) (km : KnownEvals), cache_ok t y km →
      (Symb.evaluate_known t y s km).1 = s.evaluate t y ∧
      cache_ok t y (Symb.evaluate_known t y s km).2 := by
  intro s
  induction s with
  | Parameter n =>
    intro km h
    rcases hl : lookup_known km (Symb.Parameter n) with _ | w
    · rw [Symb.evaluate_known, hl]
      exact ⟨rfl, h⟩
    · rw [Symb.evaluate_known, hl]
      exact ⟨(lookup_known_sound t y km h _ w hl).symm, h⟩
  | FunctionParameter n args ih =>
    intro km h
    rcases hl : lookup_known km (Symb.FunctionParameter n args) with _ | w
    · rw [Symb.evaluate_known, hl]
      exact ⟨rfl, h⟩
    · rw [Symb.evaluate_known, hl]
      exact ⟨(lookup_known_sound t y km h _ w hl).symm, h⟩
  | ArgsNil =>
    intro km h
    rcases hl : lookup_known km Symb.ArgsNil with _ | w
    · rw [Symb.evaluate_known, hl]
      exact ⟨rfl, h⟩
    · rw [Symb.evaluate_known, hl]
      exact ⟨(lookup_known_sound t y km h _ w hl).symm, h⟩
  | ArgsCons hd tl ihh iht =>
    intro km h
    rcases hl : lookup_known km (Symb.ArgsCons hd tl) with _ | w
    · rw [Symb.evaluate_known, hl]
      exact ⟨rfl, h⟩
    · rw [Symb.evaluate_known, hl]
      exact ⟨(lookup_known_sound t y km h _ w hl).symm, h⟩
  | Variable n d =>
    intro km h
    rcases hl : lookup_known km (Symb.Variable n d) with _ | w
    · rw [Symb.evaluate_known, hl]
      exact ⟨rfl, h⟩
    · rw [Symb.evaluate_known, hl]
      exact ⟨(lookup_known_sound t y km h _ w hl).symm, h⟩
  | StateVector f l =>
    intro km h
    rcases hl : lookup_known km (Symb.StateVector f l) with _ | w
    · rw [Symb.evaluate_known, hl]
      refine ⟨rfl, ?_⟩
      intro p hp
      rcases List.mem_cons.mp hp with rfl | hp
      · rfl
      · exact h p hp
    · rw [Symb.evaluate_known, hl]
      exact ⟨(lookup_known_sound t y km h _ w hl).symm, h⟩
  | Scalar v =>
    intro km h
    rcases hl : lookup_known km (Symb.Scalar v) with _ | w
    · rw [Symb.evaluate_known, hl]
      refine ⟨rfl, ?_⟩
      intro p hp
      rcases List.mem_cons.mp hp with rfl | hp
      · rfl
      · exact h p hp
    · rw [Symb.evaluate_known, hl]
      exact ⟨(lookup_known_sound t y km h _ w hl).symm, h⟩
  | Time =>
    intro km h
    rcases hl : lookup_known km Symb.Time with _ | w
    · rw [Symb.evaluate_known, hl]
      refine ⟨rfl, ?_⟩
      intro p hp
      rcases List.mem_cons.mp hp with rfl | hp
      · rfl
      · exact h p hp
    · rw [Symb.evaluate_known, hl]
      exact ⟨(lookup_known_sound t y km h _ w hl).symm, h⟩
  | Addition a b iha ihb =>
    intro km h
    rcases hl : lookup_known km (Symb.Addition a b) with _ | w
    · rw [Symb.evaluate_known, hl]
      rcases hA : Symb.evaluate_known t y a km with ⟨ra, km1⟩
      have hIH1 := iha km h
      rw [hA] at hIH1
      have ha1 : ra = Symb.evaluate t y a := hIH1.1
      have ha2 : cache_ok t y km1 := hIH1.2
      simp only [hA]
      rcases hB : Symb.evaluate_known t y b km1 with ⟨rb, km2⟩
      have hIH2 := ihb km1 ha2
      rw [hB] at hIH2
      have hb1 : rb = Symb.evaluate t y b := hIH2.1
      have hb2 : cache_ok t y km2 := hIH2.2
      simp only [hB]
      rcases ra with _ | xs <;> rcases rb with _ | ys
      · exact ⟨by rw [Symb.evaluate, ← ha1], hb2⟩
      · exact ⟨by rw [Symb.evaluate, ← ha1], hb2⟩
      · exact ⟨by rw [Symb.evaluate, ← ha1, ← hb1], hb2⟩
      · rcases hbr : broadcastOp (fun p q => p + q) xs ys with _ | v
        · refine ⟨?_, ?_⟩
          · rw [Symb.evaluate, ← ha1, ← hb1]
            simp only [record_known, hbr]
          · simp only [record_known, hbr]
            exact hb2
        · refine ⟨?_, ?_⟩
          · rw [Symb.evaluate, ← ha1, ← hb1]
            simp only [record_known, hbr]
          · simp only [record_known, hbr]
            intro p hp
            rcases List.mem_cons.mp hp with rfl | hp
            · rw [Symb.evaluate, ← ha1, ← hb1]
              exact hbr
            · exact hb2 p hp
    · rw [Symb.evaluate_known, hl]
      exact ⟨(lookup_known_sound t y km h _ w hl).symm, h⟩
  | Subtraction a b iha ihb =>
    intro km h
    rcases hl : lookup_known km (Symb.Subtraction a b) with _ | w
    · rw [Symb.evaluate_known, hl]
      rcases hA : Symb.evaluate_known t y a km with ⟨ra, km1⟩
      have hIH1 := iha km h
      rw [hA] at hIH1
      have ha1 : ra = Symb.evaluate t y a := hIH1.1
      have ha2 : cache_ok t y km1 := hIH1.2
      simp only [hA]
      rcases hB : Symb.evaluate_known t y b km1 with ⟨rb, km2⟩
      have hIH2 := ihb km1 ha2
      rw [hB] at hIH2
      have hb1 : rb = Symb.evaluate t y b := hIH2.1
      have hb2 : cache_ok t y km2 := hIH2.2
      simp only [hB]
      rcases ra with _ | xs <;> rcases rb with _ | ys
      · exact ⟨by rw [Symb.evaluate, ← ha1], hb2⟩
      · exact ⟨by rw [Symb.evaluate, ← ha1], hb2⟩
      · exact ⟨by rw [Symb.evaluate, ← ha1, ← hb1], hb2⟩
      · rcases hbr : broadcastOp (fun p q => p - q) xs ys with _ | v
        · refine ⟨?_, ?_⟩
          · rw [Symb.evaluate, ← ha1, ← hb1]
            simp only [record_known, hbr]
          · simp only [record_known, hbr]
            exact hb2
        · refine ⟨?_, ?_⟩
          · rw [Symb.evaluate, ← ha1, ← hb1]
            simp only [record_known, hbr]
          · simp only [record_known, hbr]
            intro p hp
            rcases List.mem_cons.mp hp with rfl | hp
            · rw [Symb.evaluate, ← ha1, ← hb1]
              exact hbr
            · exact hb2 p hp
    · rw [Symb.evaluate_known, hl]
      exact ⟨(lookup_known_sound t y km h _ w hl).symm, h⟩
  | Multiplication a b iha ihb =>
    intro km h
    rcases hl : lookup_known km (Symb.Multiplication a b) with _ | w
    · rw [Symb.evaluate_known, hl]
      rcases hA : Symb.evaluate_known t y a km with ⟨ra, km1⟩
      have hIH1 := iha km h
      rw [hA] at hIH1
      have ha1 : ra = Symb.evaluate t y a := hIH1.1
      have ha2 : cache_ok t y km1 := hIH1.2
      simp only [hA]
      rcases hB : Symb.evaluate_known t y b km1 with ⟨rb, km2⟩
      have hIH2 := ihb km1 ha2
      rw [hB] at hIH2
      have hb1 : rb = Symb.evaluate t y b := hIH2.1
      have hb2 : cache_ok t y km2 := hIH2.2
      simp only [hB]
      rcases ra with _ | xs <;> rcases rb with _ | ys
      · exact ⟨by rw [Symb.evaluate, ← ha1], hb2⟩
      · exact ⟨by rw [Symb.evaluate, ← ha1], hb2⟩
      · exact ⟨by rw [Symb.evaluate, ← ha1, ← hb1], hb2⟩
      · rcases hbr : broadcastOp (fun p q => p * q) xs ys with _ | v
        · refine ⟨?_, ?_⟩
          · rw [Symb.evaluate, ← ha1, ← hb1]
            simp only [record_known, hbr]
          · simp only [record_known, hbr]
            exact hb2
        · refine ⟨?_, ?_⟩
          · rw [Symb.evaluate, ← ha1, ← hb1]
            simp only [record_known, hbr]
          · simp only [record_known, hbr]
            intro p hp
            rcases List.mem_cons.mp hp with rfl | hp
            · rw [Symb.evaluate, ← ha1, ← hb1]
              exact hbr
            · exact hb2 p hp
    · rw [Symb.evaluate_known, hl]
      exact ⟨(lookup_known_sound t y km h _ w hl).symm, h⟩
  | Division a b iha ihb =>
    intro km h
    rcases hl : lookup_known km (Symb.Division a b) with _ | w
    · rw [Symb.evaluate_known, hl]
      rcases hA : Symb.evaluate_known t y a km with ⟨ra, km1⟩
      have hIH1 := iha km h
      rw [hA] at hIH1
      have ha1 : ra = Symb.evaluate t y a := hIH1.1
      have ha2 : cache_ok t y km1 := hIH1.2
      simp only [hA]
      rcases hB : Symb.evaluate_known t y b km1 with ⟨rb, km2⟩
      have hIH2 := ihb km1 ha2
      rw [hB] at hIH2
      have hb1 : rb = Symb.evaluate t y b := hIH2.1
      have hb2 : cache_ok t y km2 := hIH2.2
      simp only [hB]
      rcases ra with _ | xs <;> rcases rb with _ | ys
      · exact ⟨by rw [Symb.evaluate, ← ha1], hb2⟩
      · exact ⟨by rw [Symb.evaluate, ← ha1], hb2⟩
      · exact ⟨by rw [Symb.evaluate, ← ha1, ← hb1], hb2⟩
      · rcases hbr : divSem xs ys with _ | v
        · refine ⟨?_, ?_⟩
          · rw [Symb.evaluate, ← ha1, ← hb1]
            simp only [record_known, hbr]
          · simp only [record_known, hbr]
            exact hb2
        · refine ⟨?_, ?_⟩
          · rw [Symb.evaluate, ← ha1, ← hb1]
            simp only [record_known, hbr]
          · simp only [record_known, hbr]
            intro p hp
            rcases List.mem_cons.mp hp with rfl | hp
            · rw [Symb.evaluate, ← ha1, ← hb1]
              exact hbr
            · exact hb2 p hp
    · rw [Symb.evaluate_known, hl]
      exact ⟨(lookup_known_sound t y km h _ w hl).symm, h⟩
  | Negate c ihc =>
    intro km h
    rcases hl : lookup_known km (Symb.Negate c) with _ | w
    · rw [Symb.evaluate_known, hl]
      rcases hC : Symb.evaluate_known t y c km with ⟨rc, km1⟩
      have hIH := ihc km h
      rw [hC] at hIH
      have hc1 : rc = Symb.evaluate t y c := hIH.1
      have hc2 : cache_ok t y km1 := hIH.2
      simp only [hC]
      rcases rc with _ | xs
      · exact ⟨by rw [Symb.evaluate, ← hc1]; rfl, hc2⟩
      · refine ⟨?_, ?_⟩
        · rw [Symb.evaluate, ← hc1]
          rfl
        · simp only [record_known]
          intro p hp
          rcases List.mem_cons.mp hp with rfl | hp
          · rw [Symb.evaluate, ← hc1]
            rfl
          · exact hc2 p hp
    · rw [Symb.evaluate_known, hl]
      exact ⟨(lookup_known_sound t y km h _ w hl).symm, h⟩
  | Exp c ihc =>
    intro km h
    rcases hl : lookup_known km (Symb.Exp c) with _ | w
    · rw [Symb.evaluate_known, hl]
      rcases hC : Symb.evaluate_known t y c km with ⟨rc, km1⟩
      have hIH := ihc km h
      rw [hC] at hIH
      simp only [hC]
      exact ⟨rfl, hIH.2⟩
    · rw [Symb.evaluate_known, hl]
      exact ⟨(lookup_known_sound t y km h _ w hl).symm, h⟩

/-- C7: for every symbol, time and state, evaluating with a supplied
(coherent) `known_evals` cache returns the same value as evaluating
without one — in particular with the empty cache `known_evals={}` — the
returned cache is again coherent, and on a cache hit the cached value is
returned at once with the cache unchanged (the subtree is not
re-evaluated). -/
theorem evaluate_with_known_evals_matches_evaluate (s : Symb) (t : ℚ)
    (y : Nat → ℚ) (km : KnownEvals) (h : cache_ok t y km) :
    (Symb.evaluate_known t y s km).1 = s.evaluate t y ∧
    cache_ok t y (Symb.evaluate_known t y s km).2 ∧
    (∀ v, lookup_known km s = some v →
      Symb.evaluate_known t y s km = (some v, km)) := by
  refine ⟨(evaluate_known_spec t y s km h).1,
    (evaluate_known_spec t y s km h).2, ?_⟩
  intro v hv
  cases s <;> rw [Symb.evaluate_known, hv]

/-- Witness for C7: a concrete expression evaluated from the empty cache
agrees with plain evaluation, and a concrete cache hit returns the cached
value with the cache unchanged. -/
theorem evaluate_with_known_evals_matches_evaluate_witness :
    (Symb.evaluate_known 5 (fun _ => 0)
        (Symb.Addition (Symb.Scalar 1) Symb.Time) []).1 =
      (Symb.Addition (Symb.Scalar 1) Symb.Time).evaluate 5 (fun _ => 0) ∧
    Symb.evaluate_known 5 (fun _ => 0) Symb.Time [(Symb.Time, [5])] =
      (some [5], [(Symb.Time, [5])]) :=
  ⟨(evaluate_with_known_evals_matches_evaluate
      (Symb.Addition (Symb.Scalar 1) Symb.Time) 5 (fun _ => 0) []
      (cache_ok_nil 5 (fun _ => 0))).1,
   (evaluate_with_known_evals_matches_evaluate Symb.Time 5 (fun _ => 0)
      [(Symb.Time, [5])]
      (by intro p hp
          rw [List.mem_singleton] at hp
          subst hp
          rfl)).2.2 [5] rfl⟩
